import Mathlib

/-!
Shallow embedding of the `llm-council` backend (src/backend/council.py and
src/backend/council_config.py) and proofs about the claims of its
specification.

Modelling conventions:
* Python `str` values are modelled as `List Char` (`Str` below).  Regex
  character classes (`\s`, `\d`, `\w`, `[A-Z]`) are modelled over their ASCII
  meaning, which is what all the literal patterns of the source use.
* Python `dict`s whose insertion order matters are modelled as association
  lists; `set` membership is modelled as list membership.
* Scanning loops (`re.finditer`, `str.split`) are modelled with
  fuel-indexed structural recursion, where the fuel is the length of the
  scanned text (every step of the Python loop consumes at least one
  character, so this fuel is never exhausted early).
* Python floats are modelled as exact rationals; `round(x, 2)` is modelled
  as exact round-half-to-even at two decimal places.
* The remote worker calls of the async orchestration are modelled as oracle
  functions passed in as parameters (worker name and request text to
  optional reply); a `none` reply is the Worker Client's "absent" outcome.
-/

namespace LlmCouncil

/-- Python `str` modelled as a list of characters. -/
abbrev Str := List Char

/-! ## Sanitizer: `_sanitize_parsed_ranking` (council.py lines 106-130)

```python
def _sanitize_parsed_ranking(parsed, valid_labels):
    valid_set = set(valid_labels)
    seen = set()
    cleaned = []
    for label in parsed:
        if label in valid_set and label not in seen:
            cleaned.append(label)
            seen.add(label)
    for label in valid_labels:
        if label not in seen:
            cleaned.append(label)
            seen.add(label)
    return cleaned
```
-/

/-- First loop of `_sanitize_parsed_ranking`: walk `parsed`, keeping labels
that are in the valid set and not seen yet.  Returns the kept labels (in
order) together with the final `seen` set (as a list). -/
def sanitizeKeep {α : Type} [DecidableEq α] (validLabels : List α) :
    List α → List α → List α × List α
  | [], seen => ([], seen)
  | x :: xs, seen =>
    if x ∈ validLabels ∧ x ∉ seen then
      let r := sanitizeKeep validLabels xs (x :: seen)
      (x :: r.1, r.2)
    else
      sanitizeKeep validLabels xs seen

/-- Second loop of `_sanitize_parsed_ranking`: append the valid labels not
seen yet, in `valid_labels` order. -/
def sanitizeAppend {α : Type} [DecidableEq α] : List α → List α → List α
  | [], _ => []
  | v :: vs, seen =>
    if v ∉ seen then v :: sanitizeAppend vs (v :: seen)
    else sanitizeAppend vs seen

/-- `_sanitize_parsed_ranking(parsed, valid_labels)` from council.py. -/
def sanitize_parsed_ranking {α : Type} [DecidableEq α] (parsed validLabels : List α) :
    List α :=
  let r := sanitizeKeep validLabels parsed []
  r.1 ++ sanitizeAppend validLabels r.2

/-- The cleaning performed inline by `calculate_aggregate_rankings`
(council.py lines 570-576): filter to the valid set and de-duplicate keeping
the first occurrence, WITHOUT appending missing labels.  It is the first
loop of the sanitizer with an empty initial `seen` set. -/
def cleanPartial {α : Type} [DecidableEq α] (parsed validLabels : List α) : List α :=
  (sanitizeKeep validLabels parsed []).1

/-! ## Ranking parser: `parse_ranking_from_text` (council.py lines 449-480)

```python
def parse_ranking_from_text(ranking_text):
    if "FINAL RANKING:" in ranking_text:
        parts = ranking_text.split("FINAL RANKING:")
        if len(parts) >= 2:
            ranking_section = parts[1]
            numbered_matches = re.findall(r'\d+\.\s*Response [A-Z]', ranking_section)
            if numbered_matches:
                return [re.search(r'Response [A-Z]', m).group() for m in numbered_matches]
            matches = re.findall(r'Response [A-Z]', ranking_section)
            return matches
    matches = re.findall(r'Response [A-Z]', ranking_text)
    return matches
```

`parts[1]` of a `str.split` is the segment of the text strictly between the
first occurrence of the separator and the following occurrence (or the end
of the text when the separator occurs only once); when the separator occurs
at all, `len(parts) >= 2` always holds.
-/

/-- ASCII whitespace characters matched by the regex class `\s`. -/
def pyWs (c : Char) : Bool :=
  c = ' ' || c = '\t' || c = '\n' || c = '\r' || c = Char.ofNat 11 || c = Char.ofNat 12

/-- The literal section marker `"FINAL RANKING:"`. -/
def finalRankingMarker : Str := "FINAL RANKING:".data

/-- Index of the first occurrence of `sep` as a contiguous substring of `s`
(`none` when there is no occurrence): the first split point of Python's
`str.split` and the match position of `re.search` for a literal pattern. -/
def findSub (sep : Str) : Str → Option ℕ
  | [] => if sep = [] then some 0 else none
  | c :: cs =>
    if sep.isPrefixOf (c :: cs) then some 0
    else (findSub sep cs).map (· + 1)

/-- `s` truncated just before the first occurrence of `sep` (all of `s` when
`sep` does not occur). -/
def takeUntilSub (sep s : Str) : Str :=
  match findSub sep s with
  | some i => s.take i
  | none => s

/-- The literal `"Response "` prefix of an anonymized label. -/
def responseLit : Str := "Response ".data

/-- Match the case-sensitive regex `Response [A-Z]` at the start of `s`,
returning the matched label and the rest of the text. -/
def matchRankLabel (s : Str) : Option (Str × Str) :=
  if responseLit.isPrefixOf s then
    match s.drop 9 with
    | c :: rest => if 'A' ≤ c ∧ c ≤ 'Z' then some (responseLit ++ [c], rest) else none
    | [] => none
  else none

/-- Match the regex `\d+\.\s*Response [A-Z]` at the start of `s` (the
numbered-list form), returning the extracted label and the rest. -/
def matchNumberedItem (s : Str) : Option (Str × Str) :=
  let run := s.takeWhile Char.isDigit
  if run = [] then none
  else
    match s.dropWhile Char.isDigit with
    | '.' :: rest => matchRankLabel (rest.dropWhile pyWs)
    | _ => none

/-- `re.findall(r'\d+\.\s*Response [A-Z]', ...)` followed by extraction of
the `Response X` part: a leftmost non-overlapping scan.  The fuel is the
length of the scanned text (each step consumes at least one character). -/
def scanNumbered : ℕ → Str → List Str
  | 0, _ => []
  | _ + 1, [] => []
  | fuel + 1, c :: cs =>
    match matchNumberedItem (c :: cs) with
    | some (lab, rest) => lab :: scanNumbered fuel rest
    | none => scanNumbered fuel cs

/-- `re.findall(r'Response [A-Z]', ...)`: leftmost non-overlapping scan. -/
def scanResponseLabels : ℕ → Str → List Str
  | 0, _ => []
  | _ + 1, [] => []
  | fuel + 1, c :: cs =>
    match matchRankLabel (c :: cs) with
    | some (lab, rest) => lab :: scanResponseLabels fuel rest
    | none => scanResponseLabels fuel cs

/-- Extraction applied to the ranking section (`parts[1]`): numbered-list
matches first, falling back to bare `Response X` occurrences. -/
def rankingSection (sect : Str) : List Str :=
  let numbered := scanNumbered sect.length sect
  if numbered ≠ [] then numbered else scanResponseLabels sect.length sect

/-- `parse_ranking_from_text` from council.py. -/
def parse_ranking_from_text (s : Str) : List Str :=
  match findSub finalRankingMarker s with
  | some i =>
    rankingSection
      (takeUntilSub finalRankingMarker (s.drop (i + finalRankingMarker.length)))
  | none => scanResponseLabels s.length s

/-- Stage 2's treatment of one reviewer reply (council.py lines 350-353):
parse the raw ranking text, then sanitize it against that reviewer's shown
labels. -/
def stage2_parsed_ranking (content : Str) (reviewedLabels : List Str) : List Str :=
  sanitize_parsed_ranking (parse_ranking_from_text content) reviewedLabels

/-! ## Scores parser: `parse_scores_from_text` (council.py lines 483-531)

The score-line regex is

```
Response\s+([A-Z])\s*\|\s*accuracy\s*[:=]\s*(\d{1,2})(?:\s*/\s*10)?\b[^|]*\|
\s*insight\s*[:=]\s*(\d{1,2})(?:\s*/\s*10)?\b[^|]*\|
\s*total\s*[:=]\s*(\d{1,2})(?:\s*/\s*20)?\b
```

with `re.IGNORECASE`, scanned with `finditer` over the text between the
(case-insensitive) `SCORES:` header and the following `FINAL RANKING:`
header.  The embedding below resolves the pattern's backtracking explicitly:
the digit group prefers two digits over one, and the optional `/10` (`/20`)
suffix prefers presence over absence; `[^|]*\|` deterministically skips to
the next bar.
-/

/-- Case-insensitive literal prefix match (ASCII lowering, as used by the
`re.IGNORECASE` literal parts of the patterns). -/
def matchCI : Str → Str → Bool
  | [], _ => true
  | _ :: _, [] => false
  | p :: ps, c :: cs => p.toLower = c.toLower && matchCI ps cs

/-- Regex word characters (`\w`, ASCII): letters, digits and underscore. -/
def isWordChar (c : Char) : Bool := c.isAlphanum || c = '_'

/-- Scan for the first position with a word boundary before it at which the
case-insensitive pattern matches (the patterns used start with a word
character, so `\b` there means: start of text or a preceding non-word
character).  `prevIsWord` records whether the previous character is a word
character. -/
def findCIBoundAux (pat : Str) : Bool → Str → Option ℕ
  | _, [] => none
  | prevIsWord, c :: cs =>
    if !prevIsWord && matchCI pat (c :: cs) then some 0
    else (findCIBoundAux pat (isWordChar c) cs).map (· + 1)

/-- `re.search(r"\b" + literal, text, re.IGNORECASE)`: position of the first
boundary-anchored case-insensitive occurrence of `pat` in `s`. -/
def findCIBound (pat s : Str) : Option ℕ := findCIBoundAux pat false s

/-- Numeric value of a digit character. -/
def digitVal (c : Char) : ℕ := c.toNat - 48

/-- Numeric value of a digit string (the captured group). -/
def digitsVal (ds : List Char) : ℕ := ds.foldl (fun acc c => 10 * acc + digitVal c) 0

/-- Match the optional suffix `\s*/\s*D` (with `D` the literal `10` or `20`),
returning the rest of the text after it. -/
def matchSlashSuffix (d : Str) (s : Str) : Option Str :=
  match s.dropWhile pyWs with
  | '/' :: s2 =>
    let s3 := s2.dropWhile pyWs
    if d.isPrefixOf s3 then some (s3.drop d.length) else none
  | _ => none

/-- The word boundary `\b` after a digit: next character is absent or not a
word character. -/
def noWordCharAhead : Str → Bool
  | [] => true
  | c :: _ => !isWordChar c

/-- One alternative of the number part: given captured digits and the rest,
try the `/D` suffix first (the optional group is greedy) and then no suffix,
each followed by the `\b` check. -/
def tryDigits (d : Str) (digits : List Char) (rest : Str) : Option (ℕ × Str) :=
  match matchSlashSuffix d rest with
  | some r2 =>
    if noWordCharAhead r2 then some (digitsVal digits, r2)
    else if noWordCharAhead rest then some (digitsVal digits, rest)
    else none
  | none =>
    if noWordCharAhead rest then some (digitsVal digits, rest) else none

/-- The number part `(\d{1,2})(?:\s*/\s*D)?\b` of the score-line regex with
its backtracking order: two digits before one digit, suffix before no
suffix. -/
def matchNumber (d : Str) : Str → Option (ℕ × Str)
  | [] => none
  | [c1] => if c1.isDigit then tryDigits d [c1] [] else none
  | c1 :: c2 :: s2 =>
    if c1.isDigit then
      if c2.isDigit then
        match tryDigits d [c1, c2] s2 with
        | some r => some r
        | none => tryDigits d [c1] (c2 :: s2)
      else tryDigits d [c1] (c2 :: s2)
    else none

/-- `[^|]*\|`: skip (greedily) to the next bar and past it. -/
def skipToBar : Str → Option Str
  | [] => none
  | '|' :: rest => some rest
  | _ :: rest => skipToBar rest

/-- One field of the score line: `\s*NAME\s*[:=]\s*` followed by the number
part. -/
def matchScoreField (name d : Str) (s : Str) : Option (ℕ × Str) :=
  let s1 := s.dropWhile pyWs
  if matchCI name s1 then
    let s2 := (s1.drop name.length).dropWhile pyWs
    match s2 with
    | c :: s3 =>
      if c = ':' ∨ c = '=' then matchNumber d (s3.dropWhile pyWs) else none
    | [] => none
  else none

/-- The raw captures of one score-line match. -/
structure RawScore where
  label : Char
  accuracy : ℕ
  insight : ℕ
  total_reported : ℕ
deriving DecidableEq

/-- Match the full score-line regex at the start of `s`. -/
def matchScoreLine (s : Str) : Option (RawScore × Str) :=
  if matchCI "Response".data s then
    let s1 := s.drop 8
    if s1.takeWhile pyWs = [] then none
    else
      match s1.dropWhile pyWs with
      | c :: s2 =>
        if c.isAlpha then
          match s2.dropWhile pyWs with
          | '|' :: s4 =>
            (matchScoreField "accuracy".data "10".data s4).bind fun ar =>
              (skipToBar ar.2).bind fun r2 =>
                (matchScoreField "insight".data "10".data r2).bind fun ir =>
                  (skipToBar ir.2).bind fun r4 =>
                    (matchScoreField "total".data "20".data r4).map fun tr =>
                      (⟨c.toUpper, ar.1, ir.1, tr.1⟩, tr.2)
          | _ => none
        else none
      | [] => none
  else none

/-- `finditer` of the score-line regex: leftmost non-overlapping scan. -/
def scanScores : ℕ → Str → List RawScore
  | 0, _ => []
  | _ + 1, [] => []
  | fuel + 1, c :: cs =>
    match matchScoreLine (c :: cs) with
    | some (r, rest) => r :: scanScores fuel rest
    | none => scanScores fuel cs

/-- One parsed score entry (the value stored per label). -/
structure ScoreEntry where
  accuracy : ℕ
  insight : ℕ
  total : ℕ
  total_reported : ℕ
  total_ok : Bool
deriving DecidableEq

/-- The per-match processing of `parse_scores_from_text`: clamp accuracy and
insight to [0,10], recompute the total as the clamped sum, record the
reported total and the consistency flag. -/
def mkScoreEntry (r : RawScore) : ScoreEntry :=
  let accuracy := max 0 (min 10 r.accuracy)
  let insight := max 0 (min 10 r.insight)
  let total_expected := accuracy + insight
  let total := max 0 (min 20 total_expected)
  { accuracy := accuracy, insight := insight, total := total,
    total_reported := r.total_reported,
    total_ok := r.total_reported == total_expected }

/-- The dict key `f"Response {m.group(1).upper()}"` of a match. -/
def labelOf (r : RawScore) : Str := responseLit ++ [r.label]

/-- First-match lookup in an association list (Python `dict` access; the
dicts built by the embedded code never have duplicate keys). -/
def assocFind {κ β : Type} [DecidableEq κ] (k : κ) : List (κ × β) → Option β
  | [] => none
  | (k', v) :: t => if k = k' then some v else assocFind k t

/-- The dict-building loop of `parse_scores_from_text`: first occurrence of
a label wins, later duplicates are skipped. -/
def buildScoresAux : List RawScore → List (Str × ScoreEntry) → List (Str × ScoreEntry)
  | [], acc => acc
  | r :: rs, acc =>
    if (assocFind (labelOf r) acc).isSome then buildScoresAux rs acc
    else buildScoresAux rs (acc ++ [(labelOf r, mkScoreEntry r)])

/-- The text slicing of `parse_scores_from_text` (prefer the text after a
case-insensitive `SCORES:` header, truncated before a following
case-insensitive `FINAL RANKING:` header) followed by the `finditer` scan.
`.end()` of the `SCORES:` match includes the trailing `\s*`. -/
def rawScoreMatches (s : Str) : List RawScore :=
  let after :=
    match findCIBound "SCORES:".data s with
    | some i => ((s.drop (i + 7)).dropWhile pyWs)
    | none => s
  let after2 :=
    match findCIBound "FINAL RANKING:".data after with
    | some j => after.take j
    | none => after
  scanScores after2.length after2

/-- `parse_scores_from_text` from council.py, as an insertion-ordered
association list from labels to score entries. -/
def parse_scores_from_text (s : Str) : List (Str × ScoreEntry) :=
  buildScoresAux (rawScoreMatches s) []

/-- The decimal digit characters (the regex class `\d`, ASCII). -/
def digitChars : Str := "0123456789".data

/-- `ciRefutes pat zs` decides that the case-insensitive match of `pat`
fails against `zs` within `zs` itself, so that `matchCI pat (zs ++ rest)`
is false for every `rest`. -/
def ciRefutes : Str → Str → Bool
  | [], _ => false
  | _ :: _, [] => false
  | p :: ps, c :: cs => if p.toLower = c.toLower then ciRefutes ps cs else true

/-! ## Aggregation: `calculate_aggregate_rankings` (council.py lines 534-597)
and `calculate_aggregate_scores` (lines 600-666). -/

/-- A Stage-2 result entry (the dict built in `stage2_collect_rankings`). -/
structure Stage2Result where
  model : String := ""
  ranking : Str := []
  parsed_ranking : List Str := []
  parsed_scores : List (Str × ScoreEntry) := []
  latency_ms : ℕ := 0
  ollama_model : String := ""
  prompt_tokens : Option ℕ := none
  completion_tokens : Option ℕ := none
  total_tokens : Option ℕ := none
  reviewed_labels : List Str := []
  excluded_label : Option Str := none
deriving DecidableEq

/-- The per-entry parsed ranking used by the aggregators: the stored
`parsed_ranking` unless it is empty, in which case the raw text is
re-parsed. -/
def entryParsedRanking (e : Stage2Result) : List Str :=
  if e.parsed_ranking ≠ [] then e.parsed_ranking
  else parse_ranking_from_text e.ranking

/-- The per-entry valid label set: the entry's `reviewed_labels` restricted
to the known labels, or all known labels when `reviewed_labels` is empty. -/
def entryValidSet (e : Stage2Result) (allValid : List Str) : List Str :=
  if e.reviewed_labels ≠ [] then e.reviewed_labels.filter (fun x => decide (x ∈ allValid))
  else allValid

/-- The cleaned per-reviewer ranking of `calculate_aggregate_rankings`:
filter to the valid set and de-duplicate, WITHOUT appending missing
labels. -/
def entryCleaned (ltm : List (Str × String)) (e : Stage2Result) : List Str :=
  cleanPartial (entryParsedRanking e) (entryValidSet e (ltm.map Prod.fst))

/-- `model_positions[model_name].append(position)` on a defaultdict(list)
modelled as an insertion-ordered association list. -/
def addPosition (m : String) (pos : ℕ) :
    List (String × List ℕ) → List (String × List ℕ)
  | [] => [(m, [pos])]
  | (k, ps) :: t =>
    if k = m then (k, ps ++ [pos]) :: t else (k, ps) :: addPosition m pos t

/-- Accumulate one Stage-2 entry's votes: 1-based positions in the cleaned
ranking, for labels known to `label_to_model`. -/
def entryPositionsFold (ltm : List (Str × String))
    (acc : List (String × List ℕ)) (e : Stage2Result) : List (String × List ℕ) :=
  (entryCleaned ltm e).enum.foldl
    (fun acc p =>
      match assocFind p.2 ltm with
      | some mname => addPosition mname (p.1 + 1) acc
      | none => acc)
    acc

/-- The `model_positions` mapping after processing all Stage-2 entries. -/
def modelPositions (s2 : List Stage2Result) (ltm : List (Str × String)) :
    List (String × List ℕ) :=
  s2.foldl (entryPositionsFold ltm) []

/-- Round half to even at integer precision (Python `round` on an exactly
represented value; float representation error is out of scope of this
model). -/
def roundHalfEven (q : ℚ) : ℤ :=
  let f := ⌊q⌋
  let r := q - f
  if r < 1 / 2 then f
  else if 1 / 2 < r then f + 1
  else if f % 2 = 0 then f else f + 1

/-- Python `round(x, 2)`. -/
def round2 (q : ℚ) : ℚ := (roundHalfEven (100 * q) : ℚ) / 100

/-- Mean of a list of positions, as a rational. -/
def ratMean (ps : List ℕ) : ℚ := (ps.map (fun n => (n : ℚ))).sum / ps.length

/-- One entry of the aggregate ranking. -/
structure AggEntry where
  model : String
  average_rank : ℚ
  rankings_count : ℕ
deriving DecidableEq

/-- Insertion into a list sorted ascending by `average_rank`, placing the new
element after all existing elements with an equal or smaller key: this is
the unique stable sorted outcome, matching Python's stable `list.sort` with
`key=lambda x: x['average_rank']`. -/
def insertByRank (a : AggEntry) : List AggEntry → List AggEntry
  | [] => [a]
  | b :: l =>
    if a.average_rank < b.average_rank then a :: b :: l else b :: insertByRank a l

/-- Stable sort ascending by `average_rank`. -/
def sortByRank (l : List AggEntry) : List AggEntry :=
  l.foldl (fun acc a => insertByRank a acc) []

/-- `calculate_aggregate_rankings` from council.py. -/
def calculate_aggregate_rankings (s2 : List Stage2Result)
    (ltm : List (Str × String)) : List AggEntry :=
  sortByRank
    ((modelPositions s2 ltm).filterMap
      (fun p =>
        if p.2 ≠ [] then
          some ⟨p.1, round2 (ratMean p.2), p.2.length⟩
        else none))

/-- The spec-side description of the votes for one worker: for each Stage-2
entry, the 1-based positions in its cleaned ranking whose label maps to that
worker, concatenated over all entries. -/
def positionsSpec (s2 : List Stage2Result) (ltm : List (Str × String))
    (m : String) : List ℕ :=
  (s2.map (fun e =>
    (entryCleaned ltm e).enum.filterMap
      (fun p => if assocFind p.2 ltm = some m then some (p.1 + 1) else none))).flatten

/-- One entry of the aggregate scores. -/
structure AggScoreEntry where
  model : String
  average_accuracy : ℚ
  average_insight : ℚ
  average_total : ℚ
  scores_count : ℕ
deriving DecidableEq

/-- Accumulator cell of `calculate_aggregate_scores`. -/
structure ScoreSums where
  acc : ℚ
  ins : ℚ
  total : ℚ
  count : ℕ
deriving DecidableEq

/-- `sums[model]` update on a defaultdict modelled as an insertion-ordered
association list. -/
def addScore (m : String) (a i t : ℚ) :
    List (String × ScoreSums) → List (String × ScoreSums)
  | [] => [(m, ⟨a, i, t, 1⟩)]
  | (k, s) :: rest =>
    if k = m then (k, ⟨s.acc + a, s.ins + i, s.total + t, s.count + 1⟩) :: rest
    else (k, s) :: addScore m a i t rest

/-- The per-entry parsed scores used by the score aggregator: the stored
`parsed_scores` unless empty, in which case the raw text is re-parsed. -/
def entryParsedScores (e : Stage2Result) : List (Str × ScoreEntry) :=
  if e.parsed_scores ≠ [] then e.parsed_scores
  else parse_scores_from_text e.ranking

/-- Accumulate one Stage-2 entry's scores. -/
def entryScoresFold (ltm : List (Str × String))
    (acc : List (String × ScoreSums)) (e : Stage2Result) :
    List (String × ScoreSums) :=
  (entryParsedScores e).foldl
    (fun acc p =>
      if p.1 ∈ entryValidSet e (ltm.map Prod.fst) then
        match assocFind p.1 ltm with
        | some mname =>
          addScore mname (p.2.accuracy : ℚ) (p.2.insight : ℚ) (p.2.total : ℚ) acc
        | none => acc
      else acc)
    acc

/-- Strict lexicographic order on the sort key
`(-average_total, -average_accuracy, -average_insight, model)` of
`calculate_aggregate_scores`. -/
def aggScoreKeyLt (a b : AggScoreEntry) : Bool :=
  if a.average_total ≠ b.average_total then decide (b.average_total < a.average_total)
  else if a.average_accuracy ≠ b.average_accuracy then
    decide (b.average_accuracy < a.average_accuracy)
  else if a.average_insight ≠ b.average_insight then
    decide (b.average_insight < a.average_insight)
  else decide (a.model < b.model)

/-- Stable insertion for the aggregate-scores sort. -/
def insertByScoreKey (a : AggScoreEntry) : List AggScoreEntry → List AggScoreEntry
  | [] => [a]
  | b :: l => if aggScoreKeyLt a b then a :: b :: l else b :: insertByScoreKey a l

/-- Stable sort by the aggregate-scores key. -/
def sortByScoreKey (l : List AggScoreEntry) : List AggScoreEntry :=
  l.foldl (fun acc a => insertByScoreKey a acc) []

/-- `calculate_aggregate_scores` from council.py. -/
def calculate_aggregate_scores (s2 : List Stage2Result)
    (ltm : List (Str × String)) : List AggScoreEntry :=
  let sums := s2.foldl (entryScoresFold ltm) []
  sortByScoreKey
    (sums.filterMap
      (fun p =>
        if p.2.count = 0 then none
        else
          some ⟨p.1, round2 (p.2.acc / p.2.count), round2 (p.2.ins / p.2.count),
            round2 (p.2.total / p.2.count), p.2.count⟩))

/-! ## Topology config loader (council_config.py)

```python
class WorkerEndpoint(BaseModel):
    name: str = Field(min_length=1)
    url: AnyHttpUrl

class CouncilTopology(BaseModel):
    council: List[WorkerEndpoint] = Field(min_length=1)
    chairman: WorkerEndpoint
    title_generator: Optional[str] = None  # worker name (must be in council)

@lru_cache
def load_council_topology(path=None):
    ...
    try:
        topo = CouncilTopology.model_validate(data)
    except ValidationError as e:
        raise ValueError(...) from e
    return topo
```

The validation performed by `model_validate` checks the declared field
constraints (non-empty worker name, http(s) url, non-empty council list).
There is NO validator relating `title_generator` to the members of
`council`.  File existence and JSON decoding are I/O and are outside this
embedding: the loader is modelled from the already-decoded data onward. -/

/-- A raw (pre-validation) worker endpoint record. -/
structure RawEndpoint where
  name : String
  url : String
deriving DecidableEq

/-- The raw (pre-validation) decoded JSON config. -/
structure RawConfig where
  council : List RawEndpoint
  chairman : RawEndpoint
  title_generator : Option String
deriving DecidableEq

/-- A validated worker endpoint. -/
structure ConfigEndpoint where
  name : String
  url : String
deriving DecidableEq

/-- A validated council topology. -/
structure CouncilTopology where
  council : List ConfigEndpoint
  chairman : ConfigEndpoint
  title_generator : Option String
deriving DecidableEq

/-- Pydantic's `AnyHttpUrl`, modelled as an http(s) URL with a non-empty
host part. -/
def isHttpUrl (u : Str) : Bool :=
  ("http://".data.isPrefixOf u && u.length > 7) ||
    ("https://".data.isPrefixOf u && u.length > 8)

/-- The declared field constraints of `WorkerEndpoint`. -/
def validateEndpoint (e : RawEndpoint) : Bool :=
  e.name.length ≥ 1 && isHttpUrl e.url.data

/-- `CouncilTopology.model_validate` inside `load_council_topology`: field
validation only — no membership check for `title_generator`. -/
def load_council_topology (cfg : RawConfig) : Except String CouncilTopology :=
  if cfg.council ≠ [] ∧ cfg.council.all validateEndpoint ∧
      validateEndpoint cfg.chairman then
    .ok
      ⟨cfg.council.map (fun e => ⟨e.name, e.url⟩),
        ⟨cfg.chairman.name, cfg.chairman.url⟩, cfg.title_generator⟩
  else .error "Invalid council config"

/-! ## Pipeline orchestration (council.py lines 18-236, 376-446, 732-778)

The remote calls are modelled as oracle parameters: `resp name query` is the
Stage-1 reply of worker `name`, `rw name text` its rewrite-to-English reply,
`reviewReply name` its Stage-2 reply, `translate name text` the
normalization reply, and `synth query s1 s2` the chairman synthesis reply.
`none` is the Worker Client's "absent" outcome. -/

/-- A council worker as used by the orchestrator. -/
structure Worker where
  name : String
  base_url : String
deriving DecidableEq

/-- A `/api/chat` reply (`ChatResponse`). -/
structure ChatResponse where
  content : Str
  latency_ms : ℕ
  model : String
  prompt_tokens : Option ℕ := none
  completion_tokens : Option ℕ := none
  total_tokens : Option ℕ := none
deriving DecidableEq

/-- A `/api/synthesize` reply (`SynthesizeResponse`). -/
structure SynthResponse where
  model : String
  response : Str
  latency_ms : ℕ
  prompt_tokens : Option ℕ := none
  completion_tokens : Option ℕ := none
  total_tokens : Option ℕ := none
deriving DecidableEq

/-- A Stage-1 result entry. -/
structure Stage1Result where
  model : String
  response : Str
  latency_ms : ℕ := 0
  ollama_model : String := ""
  prompt_tokens : Option ℕ := none
  completion_tokens : Option ℕ := none
  total_tokens : Option ℕ := none
  rewrite_applied : Bool := false
deriving DecidableEq

/-- The Stage-3 result dict. -/
structure Stage3Result where
  model : String
  response : Str
  latency_ms : Option ℕ := none
  prompt_tokens : Option ℕ := none
  completion_tokens : Option ℕ := none
  total_tokens : Option ℕ := none
  error : Bool := false
  error_type : Option String := none
  rewrite_applied : Bool := false
deriving DecidableEq

/-- The metadata dict of `run_full_council` (`none` fields model missing
keys; the error path returns the empty dict). -/
structure Metadata where
  label_to_model : Option (List (Str × String)) := none
  aggregate_rankings : Option (List AggEntry) := none
  aggregate_scores : Option (List AggScoreEntry) := none
deriving DecidableEq

/-- `_contains_non_english_script`: CJK, Hiragana/Katakana, Hangul,
Cyrillic or Arabic code points. -/
def isNonEnglishChar (c : Char) : Bool :=
  (0x4E00 ≤ c.toNat && c.toNat ≤ 0x9FFF) ||
    (0x3040 ≤ c.toNat && c.toNat ≤ 0x30FF) ||
    (0xAC00 ≤ c.toNat && c.toNat ≤ 0xD7AF) ||
    (0x400 ≤ c.toNat && c.toNat ≤ 0x4FF) ||
    (0x600 ≤ c.toNat && c.toNat ≤ 0x6FF)

/-- `_contains_non_english_script(text)`. -/
def contains_non_english_script (s : Str) : Bool := s.any isNonEnglishChar

/-- Python `str.strip()`. -/
def pyStrip (s : Str) : Str :=
  ((s.dropWhile pyWs).reverse.dropWhile pyWs).reverse

/-- A double or single quote character. -/
def isQuoteChar (c : Char) : Bool := c = '"' || c = Char.ofNat 39

/-- Python `str.strip('"\'')`. -/
def stripQuotes (s : Str) : Str :=
  ((s.dropWhile isQuoteChar).reverse.dropWhile isQuoteChar).reverse

/-- The `_maybe_rewrite` pass of `stage1_collect_responses`: if the response
still contains non-English script, ask the same worker to rewrite it and
accept the rewrite only if non-empty and clean. -/
def maybe_rewrite (council : List Worker)
    (rw : String → Str → Option ChatResponse) (r : Stage1Result) : Stage1Result :=
  if contains_non_english_script r.response then
    match council.find? (fun w => w.name == r.model) with
    | none => r
    | some _ =>
      match rw r.model r.response with
      | none => r
      | some resp =>
        let rewritten := pyStrip resp.content
        if rewritten ≠ [] ∧ contains_non_english_script rewritten = false then
          let anyTok := resp.prompt_tokens.isSome ∨ resp.completion_tokens.isSome ∨
            resp.total_tokens.isSome
          { r with
            response := rewritten,
            latency_ms := r.latency_ms + resp.latency_ms,
            prompt_tokens := if anyTok then resp.prompt_tokens else r.prompt_tokens,
            completion_tokens :=
              if anyTok then resp.completion_tokens else r.completion_tokens,
            total_tokens := if anyTok then resp.total_tokens else r.total_tokens,
            rewrite_applied := true }
        else r
  else r

/-- `stage1_collect_responses`: one entry per council worker (in council
order) whose reply is present, followed by the best-effort rewrite pass. -/
def stage1_collect_responses (council : List Worker) (q : Str)
    (resp : String → Str → Option ChatResponse)
    (rw : String → Str → Option ChatResponse) : List Stage1Result :=
  (council.filterMap
    (fun w =>
      (resp w.name q).map
        (fun c =>
          { model := w.name, response := c.content, latency_ms := c.latency_ms,
            ollama_model := c.model, prompt_tokens := c.prompt_tokens,
            completion_tokens := c.completion_tokens,
            total_tokens := c.total_tokens }))).map (maybe_rewrite council rw)

/-- `chr(65 + i)`: the i-th anonymization letter. -/
def mkLabelChar (i : ℕ) : Char := Char.ofNat (65 + i)

/-- `f"Response {chr(65 + i)}"`: the i-th anonymized label. -/
def mkLabel (i : ℕ) : Str := responseLit ++ [mkLabelChar i]

/-- The `label_to_model` mapping of `stage2_collect_rankings`: the i-th
label paired with the i-th Stage-1 result's model. -/
def stage2_label_to_model (stage1 : List Stage1Result) : List (Str × String) :=
  stage1.enum.map (fun p => (mkLabel p.1, p.2.model))

/-- The `model_to_label` mapping (entries with a falsy model name are
skipped, as in the source's truthiness check). -/
def modelToLabel (stage1 : List Stage1Result) : List (String × Str) :=
  stage1.enum.filterMap
    (fun p => if p.2.model ≠ "" then some (p.2.model, mkLabel p.1) else none)

/-- The reviewer's own label, if present in this run. -/
def excludedLabelFor (stage1 : List Stage1Result) (name : String) : Option Str :=
  assocFind name (modelToLabel stage1)

/-- The labels shown to a reviewer: every label except its own. -/
def reviewedLabelsFor (stage1 : List Stage1Result) (name : String) : List Str :=
  (List.range stage1.length).filterMap
    (fun i =>
      if some (mkLabel i) = excludedLabelFor stage1 name then none
      else some (mkLabel i))

/-- The reply used for one reviewer in `_rank_one`, including the
best-effort rewrite of non-English replies (the rewrite is used when present
with non-empty content). -/
def stage2_reply (reviewReply : String → Option ChatResponse)
    (reviewRw : String → Str → Option ChatResponse) (name : String) :
    Option ChatResponse :=
  match reviewReply name with
  | none => none
  | some resp =>
    if contains_non_english_script resp.content then
      match reviewRw name resp.content with
      | some rwr => if rwr.content ≠ [] then some rwr else some resp
      | none => some resp
    else some resp

/-- `stage2_collect_rankings`: label assignment, the fewer-than-2 skip, and
one Stage-2 entry per responding reviewer. -/
def stage2_collect_rankings (council : List Worker)
    (reviewReply : String → Option ChatResponse)
    (reviewRw : String → Str → Option ChatResponse)
    (stage1 : List Stage1Result) :
    List Stage2Result × List (Str × String) :=
  let ltm := stage2_label_to_model stage1
  if stage1.length < 2 then ([], ltm)
  else
    (council.filterMap
      (fun w =>
        (stage2_reply reviewReply reviewRw w.name).map
          (fun resp =>
            let reviewed := reviewedLabelsFor stage1 w.name
            { model := w.name, ranking := resp.content,
              parsed_ranking :=
                sanitize_parsed_ranking (parse_ranking_from_text resp.content) reviewed,
              parsed_scores :=
                (parse_scores_from_text resp.content).filter
                  (fun p => decide (p.1 ∈ reviewed)),
              latency_ms := resp.latency_ms, ollama_model := resp.model,
              prompt_tokens := resp.prompt_tokens,
              completion_tokens := resp.completion_tokens,
              total_tokens := resp.total_tokens,
              reviewed_labels := reviewed,
              excluded_label := excludedLabelFor stage1 w.name })),
      ltm)

/-- The chairman-unreachable error message. -/
def chairmanErrMsg : Str :=
  "Error: Unable to generate final synthesis (chairman worker unreachable).".data

/-- The Stage-1-empty error message. -/
def stage1ErrMsg : Str := "Error: All models failed to respond. Please try again.".data

/-- The rewrite-to-English query built by `stage3_synthesize_final`. -/
def rewriteQueryFor (draft : Str) : Str :=
  ("Rewrite the DRAFT ANSWER below into English only.\nIMPORTANT:\n- Output ONLY the rewritten answer.\n- Do NOT add new information.\n- Do NOT include any non-English text.\n\nDRAFT ANSWER:\n").data ++ draft

/-- `stage3_synthesize_final`: chairman synthesis with absent-chairman error
result and best-effort rewrite of non-English output. -/
def stage3_synthesize_final (chairman : Worker)
    (synth : Str → List Stage1Result → List Stage2Result → Option SynthResponse)
    (q : Str) (s1 : List Stage1Result) (s2 : List Stage2Result) : Stage3Result :=
  match synth q s1 s2 with
  | none =>
    { model := chairman.name, response := chairmanErrMsg,
      error := true, error_type := some "chairman_unreachable" }
  | some sy =>
    let normal : Stage3Result :=
      { model := chairman.name, response := sy.response,
        latency_ms := some sy.latency_ms, prompt_tokens := sy.prompt_tokens,
        completion_tokens := sy.completion_tokens, total_tokens := sy.total_tokens }
    if contains_non_english_script sy.response then
      match synth (rewriteQueryFor sy.response) [] [] with
      | some rwr =>
        if rwr.response ≠ [] ∧ contains_non_english_script rwr.response = false then
          { model := chairman.name, response := rwr.response,
            latency_ms := some (sy.latency_ms + rwr.latency_ms),
            prompt_tokens := rwr.prompt_tokens,
            completion_tokens := rwr.completion_tokens,
            total_tokens := rwr.total_tokens, rewrite_applied := true }
        else normal
      | none => normal
    else normal

/-- `normalize_user_query_to_english`: best-effort translation of queries
containing non-English script, via the configured title-generator worker (or
the first council worker). -/
def normalize_user_query_to_english (council : List Worker)
    (titleGen : Option String) (translate : String → Str → Option ChatResponse)
    (q : Str) : Str :=
  let s := pyStrip q
  if s = [] then s
  else if contains_non_english_script s = false then s
  else
    let preferred : Option String :=
      if titleGen.getD "" = "" then council.head?.map (fun w => w.name)
      else titleGen
    let w : Option Worker :=
      match preferred.bind (fun n => council.find? (fun x => x.name == n)) with
      | some w => some w
      | none => council.head?
    match w with
    | none => s
    | some w =>
      match translate w.name s with
      | none => s
      | some resp =>
        let out := stripQuotes (pyStrip resp.content)
        if out ≠ [] ∧ contains_non_english_script out = false then out else s

/-- `run_full_council`: normalize, Stage 1, the zero-responses error bundle,
Stage 2, aggregation, Stage 3, and metadata assembly. -/
def run_full_council (council : List Worker) (chairman : Worker)
    (titleGen : Option String)
    (translate : String → Str → Option ChatResponse)
    (resp : String → Str → Option ChatResponse)
    (rw1 : String → Str → Option ChatResponse)
    (reviewReply : String → Option ChatResponse)
    (reviewRw : String → Str → Option ChatResponse)
    (synth : Str → List Stage1Result → List Stage2Result → Option SynthResponse)
    (q : Str) :
    List Stage1Result × List Stage2Result × Stage3Result × Metadata :=
  let uq := normalize_user_query_to_english council titleGen translate q
  let s1 := stage1_collect_responses council uq resp rw1
  if s1 = [] then
    ([], [],
      { model := "error", response := stage1ErrMsg,
        error := true, error_type := some "stage1_no_responses" },
      {})
  else
    let p := stage2_collect_rankings council reviewReply reviewRw s1
    let aggR := calculate_aggregate_rankings p.1 p.2
    let aggS := calculate_aggregate_scores p.1 p.2
    let s3 := stage3_synthesize_final chairman synth uq s1 p.1
    (s1, p.1, s3,
      { label_to_model := some p.2, aggregate_rankings := some aggR,
        aggregate_scores := some aggS })

/-! # Theorems -/

/-! ## Sanitizer lemmas -/

section SanitizeLemmas

variable {α : Type} [DecidableEq α]

theorem sanitizeKeep_seen (validLabels : List α) :
    ∀ (xs seen : List α),
      (sanitizeKeep validLabels xs seen).2 =
        (sanitizeKeep validLabels xs seen).1.reverse ++ seen := by
  intro xs
  induction xs with
  | nil => intro seen; simp [sanitizeKeep]
  | cons x xs ih =>
    intro seen
    by_cases h : x ∈ validLabels ∧ x ∉ seen
    · simp only [sanitizeKeep, if_pos h]
      rw [ih (x :: seen)]
      simp
    · simp only [sanitizeKeep, if_neg h]
      exact ih seen

theorem mem_sanitizeKeep (validLabels : List α) :
    ∀ (xs seen : List α) (l : α),
      l ∈ (sanitizeKeep validLabels xs seen).1 →
        l ∈ validLabels ∧ l ∉ seen ∧ l ∈ xs := by
  intro xs
  induction xs with
  | nil => intro seen l h; simp [sanitizeKeep] at h
  | cons x xs ih =>
    intro seen l h
    by_cases hx : x ∈ validLabels ∧ x ∉ seen
    · simp only [sanitizeKeep, if_pos hx, List.mem_cons] at h
      rcases h with rfl | h
      · exact ⟨hx.1, hx.2, List.mem_cons_self _ _⟩
      · obtain ⟨h1, h2, h3⟩ := ih (x :: seen) l h
        refine ⟨h1, fun hc => h2 (List.mem_cons_of_mem _ hc), List.mem_cons_of_mem _ h3⟩
    · simp only [sanitizeKeep, if_neg hx] at h
      obtain ⟨h1, h2, h3⟩ := ih seen l h
      exact ⟨h1, h2, List.mem_cons_of_mem _ h3⟩

theorem nodup_sanitizeKeep (validLabels : List α) :
    ∀ (xs seen : List α), (sanitizeKeep validLabels xs seen).1.Nodup := by
  intro xs
  induction xs with
  | nil => intro seen; simp [sanitizeKeep]
  | cons x xs ih =>
    intro seen
    by_cases hx : x ∈ validLabels ∧ x ∉ seen
    · simp only [sanitizeKeep, if_pos hx]
      refine List.nodup_cons.2 ⟨fun hc => ?_, ih (x :: seen)⟩
      exact (mem_sanitizeKeep validLabels xs (x :: seen) x hc).2.1 (List.mem_cons_self _ _)
    · simp only [sanitizeKeep, if_neg hx]
      exact ih seen

/-- If everything in `xs` is valid, nodup, and unseen, the first loop keeps
`xs` verbatim. -/
theorem sanitizeKeep_of_clean (validLabels : List α) :
    ∀ (xs seen : List α), (∀ x ∈ xs, x ∈ validLabels) → xs.Nodup →
      (∀ x ∈ xs, x ∉ seen) →
      sanitizeKeep validLabels xs seen = (xs, xs.reverse ++ seen) := by
  intro xs
  induction xs with
  | nil => intro seen _ _ _; simp [sanitizeKeep]
  | cons x xs ih =>
    intro seen hv hn hs
    have hx : x ∈ validLabels ∧ x ∉ seen :=
      ⟨hv x (List.mem_cons_self _ _), hs x (List.mem_cons_self _ _)⟩
    simp only [sanitizeKeep, if_pos hx]
    have hrec := ih (x :: seen) (fun y hy => hv y (List.mem_cons_of_mem _ hy))
      (List.nodup_cons.1 hn).2
      (by
        intro y hy hc
        rcases List.mem_cons.1 hc with rfl | hc
        · exact (List.nodup_cons.1 hn).1 hy
        · exact hs y (List.mem_cons_of_mem _ hy) hc)
    rw [hrec]
    simp

theorem mem_sanitizeAppend :
    ∀ (vs seen : List α) (l : α), l ∈ sanitizeAppend vs seen → l ∈ vs ∧ l ∉ seen := by
  intro vs
  induction vs with
  | nil => intro seen l h; simp [sanitizeAppend] at h
  | cons v vs ih =>
    intro seen l h
    by_cases hv : v ∉ seen
    · simp only [sanitizeAppend, if_pos hv, List.mem_cons] at h
      rcases h with rfl | h
      · exact ⟨List.mem_cons_self _ _, hv⟩
      · obtain ⟨h1, h2⟩ := ih (v :: seen) l h
        exact ⟨List.mem_cons_of_mem _ h1, fun hc => h2 (List.mem_cons_of_mem _ hc)⟩
    · simp only [sanitizeAppend, if_neg hv] at h
      obtain ⟨h1, h2⟩ := ih seen l h
      exact ⟨List.mem_cons_of_mem _ h1, h2⟩

theorem nodup_sanitizeAppend :
    ∀ (vs seen : List α), (sanitizeAppend vs seen).Nodup := by
  intro vs
  induction vs with
  | nil => intro seen; simp [sanitizeAppend]
  | cons v vs ih =>
    intro seen
    by_cases hv : v ∉ seen
    · simp only [sanitizeAppend, if_pos hv]
      refine List.nodup_cons.2 ⟨fun hc => ?_, ih (v :: seen)⟩
      exact (mem_sanitizeAppend vs (v :: seen) v hc).2 (List.mem_cons_self _ _)
    · simp only [sanitizeAppend, if_neg hv]
      exact ih seen

theorem sanitizeAppend_covers :
    ∀ (vs seen : List α) (v : α), v ∈ vs → v ∈ sanitizeAppend vs seen ∨ v ∈ seen := by
  intro vs
  induction vs with
  | nil => intro seen v h; simp at h
  | cons w vs ih =>
    intro seen v h
    by_cases hw : w ∉ seen
    · simp only [sanitizeAppend, if_pos hw]
      rcases List.mem_cons.1 h with rfl | h
      · exact Or.inl (List.mem_cons_self _ _)
      · rcases ih (w :: seen) v h with h' | h'
        · exact Or.inl (List.mem_cons_of_mem _ h')
        · rcases List.mem_cons.1 h' with rfl | h'
          · exact Or.inl (List.mem_cons_self _ _)
          · exact Or.inr h'
    · simp only [sanitizeAppend, if_neg hw]
      rcases List.mem_cons.1 h with rfl | h
      · exact Or.inr (not_not.1 hw)
      · exact ih seen v h

theorem sanitizeAppend_eq_nil :
    ∀ (vs seen : List α), (∀ v ∈ vs, v ∈ seen) → sanitizeAppend vs seen = [] := by
  intro vs
  induction vs with
  | nil => intro seen _; simp [sanitizeAppend]
  | cons v vs ih =>
    intro seen h
    have hv : ¬ v ∉ seen := not_not.2 (h v (List.mem_cons_self _ _))
    simp only [sanitizeAppend, if_neg hv]
    exact ih seen (fun w hw => h w (List.mem_cons_of_mem _ hw))

/-- The sanitized ranking contains exactly the distinct valid labels. -/
theorem mem_sanitize_parsed_ranking (parsed validLabels : List α) (l : α) :
    l ∈ sanitize_parsed_ranking parsed validLabels ↔ l ∈ validLabels := by
  unfold sanitize_parsed_ranking
  constructor
  · intro h
    rcases List.mem_append.1 h with h | h
    · exact (mem_sanitizeKeep validLabels parsed [] l h).1
    · exact (mem_sanitizeAppend validLabels _ l h).1
  · intro h
    rcases sanitizeAppend_covers validLabels (sanitizeKeep validLabels parsed []).2 l h with
      h' | h'
    · exact List.mem_append.2 (Or.inr h')
    · rw [sanitizeKeep_seen validLabels parsed []] at h'
      simp only [List.append_nil, List.mem_reverse] at h'
      exact List.mem_append.2 (Or.inl h')

/-- The sanitized ranking has no duplicates. -/
theorem nodup_sanitize_parsed_ranking (parsed validLabels : List α) :
    (sanitize_parsed_ranking parsed validLabels).Nodup := by
  unfold sanitize_parsed_ranking
  refine List.nodup_append.2 ⟨nodup_sanitizeKeep _ _ _, nodup_sanitizeAppend _ _, ?_⟩
  intro a ha hb
  have h2 := (mem_sanitizeAppend validLabels _ a hb).2
  rw [sanitizeKeep_seen validLabels parsed []] at h2
  simp only [List.append_nil, List.mem_reverse] at h2
  exact h2 ha

theorem sanitize_parsed_ranking_fixed (y validLabels : List α)
    (hval : ∀ l ∈ y, l ∈ validLabels) (hnd : y.Nodup)
    (hcov : ∀ v ∈ validLabels, v ∈ y) :
    sanitize_parsed_ranking y validLabels = y := by
  unfold sanitize_parsed_ranking
  have hkeep := sanitizeKeep_of_clean validLabels y [] hval hnd (by intro x _ hc; simp at hc)
  rw [hkeep]
  have happ : sanitizeAppend validLabels (y.reverse ++ []) = [] := by
    refine sanitizeAppend_eq_nil _ _ ?_
    intro v hv
    simp only [List.append_nil, List.mem_reverse]
    exact hcov v hv
  simp only at happ ⊢
  rw [happ, List.append_nil]

end SanitizeLemmas

/-- C6: the sanitizer is idempotent. -/
theorem sanitize_idempotent (x V : List Str) :
    sanitize_parsed_ranking (sanitize_parsed_ranking x V) V =
      sanitize_parsed_ranking x V := by
  refine sanitize_parsed_ranking_fixed _ _ ?_ ?_ ?_
  · intro l hl; exact (mem_sanitize_parsed_ranking x V l).1 hl
  · exact nodup_sanitize_parsed_ranking x V
  · intro v hv; exact (mem_sanitize_parsed_ranking x V v).2 hv

/-! ## `findSub` lemmas and the ranking-parser claims -/

theorem findSub_isSome_of_prefix {m s : Str} (h : m.isPrefixOf s = true) :
    (findSub m s).isSome := by
  cases s with
  | nil =>
    have : m = [] := by
      cases m with
      | nil => rfl
      | cons a as => simp [List.isPrefixOf] at h
    simp [findSub, this]
  | cons c cs => simp [findSub, h]

theorem findSub_none_cons {m : Str} {c : Char} {t : Str}
    (h : findSub m (c :: t) = none) : findSub m t = none := by
  by_cases hp : m.isPrefixOf (c :: t) = true
  · simp [findSub, hp] at h
  · simp only [findSub, hp] at h
    cases hfind : findSub m t with
    | none => rfl
    | some v => rw [hfind] at h; simp at h

/-- If the marker does not occur in `(x ++ m).dropLast` (that is, nowhere
before the occurrence ending the list), then the first occurrence of `m` in
`x ++ m ++ r` is exactly at index `x.length`. -/
theorem findSub_append_marker (m : Str) (hm : m ≠ []) :
    ∀ (x r : Str), findSub m ((x ++ m).dropLast) = none →
      findSub m (x ++ (m ++ r)) = some x.length := by
  intro x
  induction x with
  | nil =>
    intro r _
    obtain ⟨a, as, rfl⟩ := List.exists_cons_of_ne_nil hm
    simp only [List.nil_append, List.length_nil]
    have hp : (a :: as).isPrefixOf ((a :: as) ++ r) = true :=
      List.isPrefixOf_iff_prefix.2 (List.prefix_append _ _)
    simp [findSub, hp]
  | cons a x ih =>
    intro r h
    have hne : ¬ m.isPrefixOf (a :: (x ++ (m ++ r))) = true := by
      intro hp
      have hfull : a :: (x ++ (m ++ r)) = ((a :: x) ++ m) ++ r := by
        simp [List.append_assoc]
      rw [hfull] at hp
      have htake : m = List.take m.length (((a :: x) ++ m) ++ r) :=
        List.prefix_iff_eq_take.1 (List.isPrefixOf_iff_prefix.1 hp)
      have hmy : m.length ≤ ((a :: x) ++ m).length - 1 := by
        simp only [List.length_append, List.length_cons]
        omega
      have t1 : List.take m.length (((a :: x) ++ m) ++ r) =
          List.take m.length ((a :: x) ++ m) :=
        List.take_append_of_le_length
          (by simp only [List.length_append, List.length_cons]; omega)
      have t2 : List.take m.length (((a :: x) ++ m).dropLast) =
          List.take m.length ((a :: x) ++ m) := by
        rw [List.dropLast_eq_take, List.take_take, min_eq_left hmy]
      have hpre2 : m.isPrefixOf (((a :: x) ++ m).dropLast) = true := by
        refine List.isPrefixOf_iff_prefix.2 (List.prefix_iff_eq_take.2 ?_)
        rw [t2, ← t1, ← htake]
      have hsome := findSub_isSome_of_prefix hpre2
      rw [h] at hsome
      simp at hsome
    have hd : ((a :: x) ++ m).dropLast = a :: ((x ++ m).dropLast) := by
      have : x ++ m ≠ [] := by
        intro hc
        exact hm (List.append_eq_nil.1 hc).2
      rw [List.cons_append, List.dropLast_cons_of_ne_nil this]
    rw [hd] at h
    have h' : findSub m ((x ++ m).dropLast) = none := findSub_none_cons h
    have hrec := ih r h'
    have hstep : findSub m ((a :: x) ++ (m ++ r)) =
        (findSub m (x ++ (m ++ r))).map (· + 1) := by
      rw [List.cons_append]
      simp only [findSub]
      rw [if_neg hne]
    rw [hstep, hrec]
    simp [List.length_cons]

/-- C2 (amended): when the marker occurs (at least) twice, the parser works
on the section between the FIRST occurrence and the next one: the text
before the first marker and after the second is ignored. -/
theorem parse_ranking_first_marker_section (pre sect post : Str)
    (h1 : findSub finalRankingMarker ((pre ++ finalRankingMarker).dropLast) = none)
    (h2 : findSub finalRankingMarker ((sect ++ finalRankingMarker).dropLast) = none) :
    parse_ranking_from_text
        (pre ++ finalRankingMarker ++ sect ++ finalRankingMarker ++ post) =
      rankingSection sect := by
  have hm : finalRankingMarker ≠ [] := by decide
  have hfull : pre ++ finalRankingMarker ++ sect ++ finalRankingMarker ++ post =
      pre ++ (finalRankingMarker ++ (sect ++ (finalRankingMarker ++ post))) := by
    simp [List.append_assoc]
  have hfind := findSub_append_marker finalRankingMarker hm pre
    (sect ++ (finalRankingMarker ++ post)) h1
  have hdrop :
      (pre ++ (finalRankingMarker ++ (sect ++ (finalRankingMarker ++ post)))).drop
          (pre.length + finalRankingMarker.length) =
        sect ++ (finalRankingMarker ++ post) := by
    rw [← List.length_append pre finalRankingMarker, ← List.append_assoc]
    exact List.drop_left _ _
  have hsec : takeUntilSub finalRankingMarker (sect ++ (finalRankingMarker ++ post)) =
      sect := by
    unfold takeUntilSub
    rw [findSub_append_marker finalRankingMarker hm sect post h2]
    exact List.take_left _ _
  rw [hfull]
  simp only [parse_ranking_from_text, hfind]
  rw [hdrop, hsec]

/-- C2 witness: instantiating the amended theorem at a concrete text. -/
theorem parse_ranking_first_marker_section_witness :
    parse_ranking_from_text
        ("intro ".data ++ finalRankingMarker ++ "\n1. Response B\n2. Response A\n".data ++
          finalRankingMarker ++ "\n1. Response C\n".data) =
      ["Response B".data, "Response A".data] :=
  (parse_ranking_first_marker_section "intro ".data "\n1. Response B\n2. Response A\n".data
      "\n1. Response C\n".data (by decide) (by decide)).trans (by decide)

/-- C2 counterexample: with the marker occurring twice, the code returns the
labels after the FIRST occurrence (up to the second), not the labels after
the last occurrence as the claim states. -/
theorem parse_ranking_not_last_marker :
    parse_ranking_from_text
        "FINAL RANKING:\n1. Response A\nFINAL RANKING:\n1. Response B\n".data =
        ["Response A".data] ∧
      parse_ranking_from_text
          "FINAL RANKING:\n1. Response A\nFINAL RANKING:\n1. Response B\n".data ≠
        ["Response B".data] := by
  constructor
  · decide
  · decide

/-- C1 counterexample: in Stage 2 the sanitizer DOES append missing labels
(complete mode): a reply whose parsed ranking is empty still yields the full
reviewed label list, so the result is not a subsequence of the labels
present in the input and is longer than the input's distinct-valid count. -/
theorem stage2_sanitize_appends_missing :
    parse_ranking_from_text "no ranking".data = [] ∧
      stage2_parsed_ranking "no ranking".data ["Response A".data] =
        ["Response A".data] := by
  constructor
  · decide
  · decide

/-- C1 (amended): in Stage 2 each reviewer's parsed ranking is sanitized in
COMPLETE mode with valid set equal to that reviewer's shown labels: unknown
labels are dropped, duplicates are removed keeping the first occurrence, and
the labels missing from the reply are appended, so the result always
contains exactly the distinct shown labels. -/
theorem stage2_parsed_ranking_complete (content : Str) (reviewedLabels : List Str) :
    (stage2_parsed_ranking content reviewedLabels).Nodup ∧
      ∀ l, l ∈ stage2_parsed_ranking content reviewedLabels ↔ l ∈ reviewedLabels := by
  refine ⟨nodup_sanitize_parsed_ranking _ _, fun l => mem_sanitize_parsed_ranking _ _ l⟩

/-! ## Scores-parser claims -/

theorem assocFind_append {κ β : Type} [DecidableEq κ] (k k' : κ) (v : β) :
    ∀ acc : List (κ × β), assocFind k (acc ++ [(k', v)]) =
      match assocFind k acc with
      | some w => some w
      | none => if k = k' then some v else none := by
  intro acc
  induction acc with
  | nil => simp [assocFind]
  | cons p t ih =>
    obtain ⟨a, b⟩ := p
    by_cases h : k = a
    · simp [assocFind, h]
    · simp only [List.cons_append, assocFind, if_neg h]
      exact ih

theorem buildScoresAux_lookup (label : Str) :
    ∀ (rs : List RawScore) (acc : List (Str × ScoreEntry)),
      assocFind label (buildScoresAux rs acc) =
        match assocFind label acc with
        | some v => some v
        | none =>
          (rs.find? (fun r => decide (labelOf r = label))).map mkScoreEntry := by
  intro rs
  induction rs with
  | nil =>
    intro acc
    simp only [buildScoresAux, List.find?_nil, Option.map_none]
    cases assocFind label acc <;> rfl
  | cons r rs ih =>
    intro acc
    by_cases hin : (assocFind (labelOf r) acc).isSome = true
    · simp only [buildScoresAux, hin, if_true]
      rw [ih acc]
      by_cases heq : labelOf r = label
      · obtain ⟨v, hv⟩ := Option.isSome_iff_exists.1 hin
        rw [heq] at hv
        rw [hv]
      · cases hacc : assocFind label acc with
        | some v => rfl
        | none =>
          have hp : decide (labelOf r = label) = false := by
            simp only [decide_eq_false_iff_not]
            exact heq
          rw [List.find?_cons, hp]
    · have hin' : (assocFind (labelOf r) acc).isSome = false := by
        simpa using hin
      simp only [buildScoresAux, hin', Bool.false_eq_true, if_false]
      rw [ih (acc ++ [(labelOf r, mkScoreEntry r)])]
      rw [assocFind_append]
      cases hacc : assocFind label acc with
      | some w => rfl
      | none =>
        by_cases heq : label = labelOf r
        · have hp : decide (labelOf r = label) = true := by
            simp only [decide_eq_true_eq]
            exact heq.symm
          rw [List.find?_cons, hp, if_pos heq]
          rfl
        · have hp : decide (labelOf r = label) = false := by
            simp only [decide_eq_false_iff_not]
            exact fun h => heq h.symm
          rw [List.find?_cons, hp, if_neg heq]

/-- C5: every score entry has accuracy and insight clamped to [0,10], its
total recomputed as the clamped sum regardless of the reported total, the
reported total recorded alongside a consistency flag that holds exactly when
it equals the (clamped) accuracy + insight, and the FIRST score line for a
label wins over later duplicates. -/
theorem parse_scores_clamped_first_wins (s label : Str) :
    (assocFind label (parse_scores_from_text s) =
      ((rawScoreMatches s).find? (fun r => decide (labelOf r = label))).map
        mkScoreEntry) ∧
    ∀ e, assocFind label (parse_scores_from_text s) = some e →
      e.accuracy ≤ 10 ∧ e.insight ≤ 10 ∧
      e.total = min (e.accuracy + e.insight) 20 ∧
      (e.total_ok = true ↔ e.total_reported = e.accuracy + e.insight) := by
  have h1 : assocFind label (parse_scores_from_text s) =
      ((rawScoreMatches s).find? (fun r => decide (labelOf r = label))).map
        mkScoreEntry := by
    unfold parse_scores_from_text
    rw [buildScoresAux_lookup]
    rfl
  refine ⟨h1, ?_⟩
  intro e he
  rw [h1] at he
  obtain ⟨r, _, hmk⟩ := Option.map_eq_some'.1 he
  subst hmk
  dsimp only [mkScoreEntry]
  refine ⟨by omega, by omega, by omega, ?_⟩
  simp only [beq_iff_eq]

/-- C5 witness: the spec's own example, via the theorem. -/
theorem parse_scores_clamped_first_wins_witness :
    assocFind "Response A".data
        (parse_scores_from_text
          "Response A | accuracy=8 | insight=9 | total=17".data) =
      some ⟨8, 9, 17, 17, true⟩ ∧
    ((8 : ℕ) ≤ 10 ∧ (9 : ℕ) ≤ 10 ∧ (17 : ℕ) = min (8 + 9) 20 ∧
      ((true : Bool) = true ↔ (17 : ℕ) = 8 + 9)) := by
  have h := (parse_scores_clamped_first_wins
      "Response A | accuracy=8 | insight=9 | total=17".data "Response A".data).2
      ⟨8, 9, 17, 17, true⟩ (by decide)
  exact ⟨by decide, h⟩

/-! ## C10: three-digit numbers never match a score line -/

theorem digit_facts {c : Char} (hc : c ∈ digitChars) :
    c.isDigit = true ∧ pyWs c = false ∧ isWordChar c = true ∧
      ¬ ('R'.toLower = c.toLower) ∧ ¬ ('S'.toLower = c.toLower) ∧
      ¬ ('F'.toLower = c.toLower) := by
  have hc' : c ∈ ['0', '1', '2', '3', '4', '5', '6', '7', '8', '9'] := hc
  fin_cases hc' <;> decide

theorem matchCI_cons_false1 {p c : Char} {ps cs : Str}
    (h : ¬ p.toLower = c.toLower) : matchCI (p :: ps) (c :: cs) = false := by
  simp [matchCI, h]

theorem ciRefutes_spec :
    ∀ (pat zs : Str), ciRefutes pat zs = true →
      ∀ rest, matchCI pat (zs ++ rest) = false := by
  intro pat
  induction pat with
  | nil => intro zs h; simp [ciRefutes] at h
  | cons p ps ih =>
    intro zs h rest
    cases zs with
    | nil => simp [ciRefutes] at h
    | cons c cs =>
      by_cases hc : p.toLower = c.toLower
      · simp only [ciRefutes, if_pos hc] at h
        rw [List.cons_append]
        show (decide (p.toLower = c.toLower) && matchCI ps (cs ++ rest)) = false
        rw [ih cs h rest, Bool.and_false]
      · exact matchCI_cons_false1 hc

theorem matchScoreLine_of_ci_false {s : Str}
    (h : matchCI "Response".data s = false) : matchScoreLine s = none := by
  simp [matchScoreLine, h]

theorem suffix_append_cases :
    ∀ (xs t suf : Str), suf <:+ xs ++ t →
      (∃ zs, zs <:+ xs ∧ zs ≠ [] ∧ suf = zs ++ t) ∨ suf <:+ t := by
  intro xs
  induction xs with
  | nil => intro t suf h; exact Or.inr (by simpa using h)
  | cons x xs ih =>
    intro t suf h
    rcases List.suffix_cons_iff.1 h with rfl | h
    · exact Or.inl ⟨x :: xs, List.suffix_rfl, by simp, by simp⟩
    · rcases ih t suf h with ⟨zs, h1, h2, h3⟩ | h'
      · exact Or.inl ⟨zs, h1.trans (List.suffix_cons x xs), h2, h3⟩
      · exact Or.inr h'

theorem findCIBoundAux_none_of (pat : Str) :
    ∀ (l : Str), (∀ suf, suf <:+ l → matchCI pat suf = false) →
      ∀ b, findCIBoundAux pat b l = none := by
  intro l
  induction l with
  | nil => intro _ b; rfl
  | cons c cs ih =>
    intro H b
    have h0 : matchCI pat (c :: cs) = false := H _ List.suffix_rfl
    simp only [findCIBoundAux, h0, Bool.and_false, Bool.false_eq_true, if_false]
    rw [ih (fun suf hs => H suf (hs.trans (List.suffix_cons c cs))) (isWordChar c)]
    rfl

theorem scanScores_nil_of :
    ∀ (l : Str), (∀ suf, suf <:+ l → matchScoreLine suf = none) →
      ∀ fuel, scanScores fuel l = [] := by
  intro l
  induction l with
  | nil => intro _ fuel; cases fuel <;> rfl
  | cons c cs ih =>
    intro H fuel
    cases fuel with
    | zero => rfl
    | succ n =>
      have h0 := H _ List.suffix_rfl
      simp only [scanScores, h0]
      exact ih (fun suf hs => H suf (hs.trans (List.suffix_cons c cs))) n

theorem tryDigits_digit {c : Char} (hc : c ∈ digitChars) (d ks rest : Str) :
    tryDigits d ks (c :: rest) = none := by
  have hc' : c ∈ ['0', '1', '2', '3', '4', '5', '6', '7', '8', '9'] := hc
  fin_cases hc' <;> rfl

theorem matchNumber_digits3 {a b c : Char} (ha : a ∈ digitChars)
    (hb : b ∈ digitChars) (hc : c ∈ digitChars) (d rest : Str) :
    matchNumber d (a :: b :: c :: rest) = none := by
  simp only [matchNumber, (digit_facts ha).1, (digit_facts hb).1, if_true]
  rw [tryDigits_digit hc d [a, b] rest]
  exact tryDigits_digit hb d [a] (c :: rest)

theorem matchScoreField_accuracy_digits3 {a b c : Char} (ha : a ∈ digitChars)
    (hb : b ∈ digitChars) (hc : c ∈ digitChars) (rest : Str) :
    matchScoreField "accuracy".data "10".data
      (" accuracy=".data ++ (a :: b :: c :: rest)) = none := by
  show matchNumber "10".data ((a :: b :: c :: rest).dropWhile pyWs) = none
  rw [List.dropWhile_cons, (digit_facts ha).2.1]
  simp only [Bool.false_eq_true, if_false]
  exact matchNumber_digits3 ha hb hc "10".data rest

theorem matchScoreLine_pref_none (X : Str)
    (h : matchScoreField "accuracy".data "10".data (" accuracy=".data ++ X) = none) :
    matchScoreLine ("Response A | accuracy=".data ++ X) = none := by
  show (matchScoreField "accuracy".data "10".data (" accuracy=".data ++ X)).bind _ = none
  rw [h]
  rfl

/-- C10: the score-line number matcher accepts at most two digits: with
three (or more) leading digits it fails outright, and a canonical score
line whose accuracy value has three or more digits produces no score entry
at all (instead of being clamped). -/
theorem parse_scores_rejects_wide_numbers :
    (∀ (d : Str) (a b c : Char) (rest : Str), a ∈ digitChars → b ∈ digitChars →
      c ∈ digitChars → matchNumber d (a :: b :: c :: rest) = none) ∧
    ∀ (ds : Str), 3 ≤ ds.length → (∀ c ∈ ds, c ∈ digitChars) →
      parse_scores_from_text
        ("Response A | accuracy=".data ++ ds ++ " | insight=9 | total=17".data) = [] := by
  constructor
  · intro d a b c rest ha hb hc
    exact matchNumber_digits3 ha hb hc d rest
  · intro ds h3 hds
    cases ds with
    | nil => simp at h3
    | cons a ds1 =>
      cases ds1 with
      | nil => simp at h3
      | cons b ds2 =>
        cases ds2 with
        | nil => simp at h3
        | cons c ds3 =>
          have ha : a ∈ digitChars := hds a (by simp)
          have hb : b ∈ digitChars := hds b (by simp)
          have hc : c ∈ digitChars := hds c (by simp)
          rw [List.append_assoc]
          have HS : ∀ suf,
              suf <:+ "Response A | accuracy=".data ++
                ((a :: b :: c :: ds3) ++ " | insight=9 | total=17".data) →
              matchCI "SCORES:".data suf = false := by
            intro suf hs
            rcases suffix_append_cases _ _ _ hs with ⟨zs, hzs, hne, rfl⟩ | hs2
            · have hdec : ∀ z ∈ ("Response A | accuracy=".data).tails,
                  z = [] ∨ ciRefutes "SCORES:".data z = true := by decide
              rcases hdec zs ((List.mem_tails _ _).2 hzs) with rfl | hz2
              · exact absurd rfl hne
              · exact ciRefutes_spec _ _ hz2 _
            · rcases suffix_append_cases _ _ _ hs2 with ⟨zs, hzs, hne, rfl⟩ | hs3
              · obtain ⟨z0, zs', rfl⟩ := List.exists_cons_of_ne_nil hne
                have hz0 : z0 ∈ digitChars :=
                  hds z0 (hzs.subset (List.mem_cons_self z0 zs'))
                exact matchCI_cons_false1 (digit_facts hz0).2.2.2.2.1
              · have hdec2 : ∀ z ∈ (" | insight=9 | total=17".data).tails,
                    matchCI "SCORES:".data z = false := by decide
                exact hdec2 suf ((List.mem_tails _ _).2 hs3)
          have HF : ∀ suf,
              suf <:+ "Response A | accuracy=".data ++
                ((a :: b :: c :: ds3) ++ " | insight=9 | total=17".data) →
              matchCI "FINAL RANKING:".data suf = false := by
            intro suf hs
            rcases suffix_append_cases _ _ _ hs with ⟨zs, hzs, hne, rfl⟩ | hs2
            · have hdec : ∀ z ∈ ("Response A | accuracy=".data).tails,
                  z = [] ∨ ciRefutes "FINAL RANKING:".data z = true := by decide
              rcases hdec zs ((List.mem_tails _ _).2 hzs) with rfl | hz2
              · exact absurd rfl hne
              · exact ciRefutes_spec _ _ hz2 _
            · rcases suffix_append_cases _ _ _ hs2 with ⟨zs, hzs, hne, rfl⟩ | hs3
              · obtain ⟨z0, zs', rfl⟩ := List.exists_cons_of_ne_nil hne
                have hz0 : z0 ∈ digitChars :=
                  hds z0 (hzs.subset (List.mem_cons_self z0 zs'))
                exact matchCI_cons_false1 (digit_facts hz0).2.2.2.2.2
              · have hdec2 : ∀ z ∈ (" | insight=9 | total=17".data).tails,
                    matchCI "FINAL RANKING:".data z = false := by decide
                exact hdec2 suf ((List.mem_tails _ _).2 hs3)
          have HL : ∀ suf,
              suf <:+ "Response A | accuracy=".data ++
                ((a :: b :: c :: ds3) ++ " | insight=9 | total=17".data) →
              matchScoreLine suf = none := by
            intro suf hs
            rcases suffix_append_cases _ _ _ hs with ⟨zs, hzs, hne, rfl⟩ | hs2
            · rcases List.suffix_cons_iff.1 hzs with rfl | hz2
              · exact matchScoreLine_pref_none _
                  (matchScoreField_accuracy_digits3 ha hb hc
                    (ds3 ++ " | insight=9 | total=17".data))
              · have hdec3 : ∀ z ∈ ("esponse A | accuracy=".data).tails,
                    z = [] ∨ ciRefutes "Response".data z = true := by decide
                rcases hdec3 zs ((List.mem_tails _ _).2 hz2) with rfl | hz3
                · exact absurd rfl hne
                · exact matchScoreLine_of_ci_false (ciRefutes_spec _ _ hz3 _)
            · rcases suffix_append_cases _ _ _ hs2 with ⟨zs, hzs, hne, rfl⟩ | hs3
              · obtain ⟨z0, zs', rfl⟩ := List.exists_cons_of_ne_nil hne
                have hz0 : z0 ∈ digitChars :=
                  hds z0 (hzs.subset (List.mem_cons_self z0 zs'))
                exact matchScoreLine_of_ci_false
                  (matchCI_cons_false1 (digit_facts hz0).2.2.2.1)
              · have hdec4 : ∀ z ∈ (" | insight=9 | total=17".data).tails,
                    matchScoreLine z = none := by decide
                exact hdec4 suf ((List.mem_tails _ _).2 hs3)
          have hS' : findCIBound "SCORES:".data
              ("Response A | accuracy=".data ++
                ((a :: b :: c :: ds3) ++ " | insight=9 | total=17".data)) = none :=
            findCIBoundAux_none_of _ _ HS false
          have hF' : findCIBound "FINAL RANKING:".data
              ("Response A | accuracy=".data ++
                ((a :: b :: c :: ds3) ++ " | insight=9 | total=17".data)) = none :=
            findCIBoundAux_none_of _ _ HF false
          have hscan := scanScores_nil_of _ HL
          simp only [parse_scores_from_text, rawScoreMatches, hS', hF', hscan,
            buildScoresAux]

/-- C10 witness: the number matcher and the full parser at `accuracy=100`. -/
theorem parse_scores_rejects_wide_numbers_witness :
    matchNumber "10".data ('1' :: '0' :: '0' :: []) = none ∧
    parse_scores_from_text
      ("Response A | accuracy=".data ++ "100".data ++
        " | insight=9 | total=17".data) = [] := by
  exact ⟨parse_scores_rejects_wide_numbers.1 "10".data '1' '0' '0' []
      (by decide) (by decide) (by decide),
    parse_scores_rejects_wide_numbers.2 "100".data (by decide) (by decide)⟩

/-! ## C4: aggregate rankings -/

theorem assocFind_addPosition (m k : String) (pos : ℕ) :
    ∀ l : List (String × List ℕ),
      assocFind k (addPosition m pos l) =
        if k = m then some ((assocFind k l).getD [] ++ [pos]) else assocFind k l := by
  intro l
  induction l with
  | nil =>
    by_cases h : k = m <;> simp [addPosition, assocFind, h]
  | cons p t ih =>
    obtain ⟨a, ps⟩ := p
    by_cases ham : a = m
    · subst ham
      by_cases hk : k = a
      · subst hk
        simp [addPosition, assocFind]
      · simp [addPosition, assocFind, hk]
    · simp only [addPosition, if_neg ham]
      by_cases hk : k = a
      · subst hk
        simp [assocFind, ham]
      · simp only [assocFind, if_neg hk]
        exact ih

/-- The votes contributed by one list of (0-based index, label) pairs for
worker `m`. -/
def pairVotes (ltm : List (Str × String)) (m : String) (pairs : List (ℕ × Str)) :
    List ℕ :=
  pairs.filterMap (fun p => if assocFind p.2 ltm = some m then some (p.1 + 1) else none)

theorem assocFind_pairsFold (ltm : List (Str × String)) (m : String) :
    ∀ (pairs : List (ℕ × Str)) (acc : List (String × List ℕ)),
      assocFind m
        (pairs.foldl
          (fun acc p =>
            match assocFind p.2 ltm with
            | some mname => addPosition mname (p.1 + 1) acc
            | none => acc)
          acc) =
      match assocFind m acc with
      | some ps => some (ps ++ pairVotes ltm m pairs)
      | none =>
        if pairVotes ltm m pairs = [] then none else some (pairVotes ltm m pairs) := by
  intro pairs
  induction pairs with
  | nil =>
    intro acc
    simp only [List.foldl_nil, pairVotes, List.filterMap_nil]
    cases assocFind m acc <;> simp
  | cons p pairs ih =>
    intro acc
    cases hl : assocFind p.2 ltm with
    | none =>
      simp only [List.foldl_cons, hl]
      rw [ih acc]
      have hv : pairVotes ltm m (p :: pairs) = pairVotes ltm m pairs := by
        simp [pairVotes, List.filterMap_cons, hl]
      rw [hv]
    | some mn =>
      simp only [List.foldl_cons, hl]
      rw [ih (addPosition mn (p.1 + 1) acc)]
      rw [assocFind_addPosition]
      by_cases hm : m = mn
      · subst hm
        have hv : pairVotes ltm m (p :: pairs) = (p.1 + 1) :: pairVotes ltm m pairs := by
          simp [pairVotes, List.filterMap_cons, hl]
        rw [hv, if_pos rfl]
        cases hacc : assocFind m acc with
        | some ps => simp
        | none => simp
      · have hv : pairVotes ltm m (p :: pairs) = pairVotes ltm m pairs := by
          have : ¬ (some mn = some m) := fun h => hm (Option.some.inj h).symm
          simp [pairVotes, List.filterMap_cons, hl, this]
        rw [hv, if_neg hm]

theorem assocFind_modelPositions_aux (ltm : List (Str × String)) (m : String) :
    ∀ (s2 : List Stage2Result) (acc : List (String × List ℕ)),
      assocFind m (s2.foldl (entryPositionsFold ltm) acc) =
        match assocFind m acc with
        | some ps => some (ps ++ positionsSpec s2 ltm m)
        | none =>
          if positionsSpec s2 ltm m = [] then none
          else some (positionsSpec s2 ltm m) := by
  intro s2
  induction s2 with
  | nil =>
    intro acc
    simp only [List.foldl_nil, positionsSpec, List.map_nil, List.flatten_nil]
    cases assocFind m acc <;> simp
  | cons e s2 ih =>
    intro acc
    have hspec : positionsSpec (e :: s2) ltm m =
        pairVotes ltm m (entryCleaned ltm e).enum ++ positionsSpec s2 ltm m := by
      simp [positionsSpec, pairVotes, List.map_cons, List.flatten_cons]
    simp only [List.foldl_cons]
    rw [ih (entryPositionsFold ltm acc e)]
    unfold entryPositionsFold
    rw [assocFind_pairsFold ltm m]
    rw [hspec]
    cases hacc : assocFind m acc with
    | some ps =>
      cases hpv : pairVotes ltm m (entryCleaned ltm e).enum with
      | nil => simp
      | cons q qs => simp
    | none =>
      cases hpv : pairVotes ltm m (entryCleaned ltm e).enum with
      | nil => simp
      | cons q qs => simp

theorem assocFind_modelPositions (s2 : List Stage2Result)
    (ltm : List (Str × String)) (m : String) :
    assocFind m (modelPositions s2 ltm) =
      if positionsSpec s2 ltm m = [] then none else some (positionsSpec s2 ltm m) := by
  unfold modelPositions
  rw [assocFind_modelPositions_aux ltm m s2 []]
  rfl

theorem mem_keys_addPosition (m k : String) (pos : ℕ) :
    ∀ l : List (String × List ℕ),
      k ∈ (addPosition m pos l).map Prod.fst ↔ k ∈ l.map Prod.fst ∨ k = m := by
  intro l
  induction l with
  | nil => simp [addPosition]
  | cons p t ih =>
    obtain ⟨a, ps⟩ := p
    by_cases ham : a = m
    · subst ham
      simp [addPosition]
      tauto
    · simp only [addPosition, if_neg ham, List.map_cons, List.mem_cons, ih]
      tauto

theorem nodup_keys_addPosition (m : String) (pos : ℕ) :
    ∀ l : List (String × List ℕ),
      (l.map Prod.fst).Nodup → ((addPosition m pos l).map Prod.fst).Nodup := by
  intro l
  induction l with
  | nil => intro _; simp [addPosition]
  | cons p t ih =>
    obtain ⟨a, ps⟩ := p
    intro h
    rw [List.map_cons, List.nodup_cons] at h
    by_cases ham : a = m
    · subst ham
      simpa [addPosition, List.nodup_cons] using h
    · simp only [addPosition, if_neg ham, List.map_cons, List.nodup_cons]
      refine ⟨fun hc => ?_, ih h.2⟩
      rcases (mem_keys_addPosition m a pos t).1 hc with h' | h'
      · exact h.1 h'
      · exact ham h'

theorem nodup_keys_pairsFold (ltm : List (Str × String)) :
    ∀ (pairs : List (ℕ × Str)) (acc : List (String × List ℕ)),
      (acc.map Prod.fst).Nodup →
      ((pairs.foldl
          (fun acc p =>
            match assocFind p.2 ltm with
            | some mname => addPosition mname (p.1 + 1) acc
            | none => acc)
          acc).map Prod.fst).Nodup := by
  intro pairs
  induction pairs with
  | nil => intro acc h; simpa using h
  | cons p pairs ih =>
    intro acc h
    simp only [List.foldl_cons]
    cases hl : assocFind p.2 ltm with
    | none => exact ih acc h
    | some mn => exact ih _ (nodup_keys_addPosition mn (p.1 + 1) acc h)

theorem nodup_keys_modelPositions (s2 : List Stage2Result)
    (ltm : List (Str × String)) :
    ((modelPositions s2 ltm).map Prod.fst).Nodup := by
  unfold modelPositions
  have : ∀ (l : List Stage2Result) (acc : List (String × List ℕ)),
      (acc.map Prod.fst).Nodup →
      ((l.foldl (entryPositionsFold ltm) acc).map Prod.fst).Nodup := by
    intro l
    induction l with
    | nil => intro acc h; simpa using h
    | cons e l ih =>
      intro acc h
      simp only [List.foldl_cons]
      exact ih _ (nodup_keys_pairsFold ltm _ acc h)
  exact this s2 [] (by simp)

theorem assocFind_of_mem_nodup_keys {β : Type} (k : String) (v : β) :
    ∀ l : List (String × β), (l.map Prod.fst).Nodup → (k, v) ∈ l →
      assocFind k l = some v := by
  intro l
  induction l with
  | nil => intro _ h; simp at h
  | cons p t ih =>
    obtain ⟨a, b⟩ := p
    intro hnd hm
    rw [List.map_cons, List.nodup_cons] at hnd
    rcases List.mem_cons.1 hm with heq | hm
    · cases heq
      simp [assocFind]
    · have hka : k ≠ a := fun h => hnd.1 (List.mem_map.2 ⟨(k, v), hm, h⟩)
      simp only [assocFind, if_neg hka]
      exact ih hnd.2 hm

theorem mem_insertByRank (x a : AggEntry) :
    ∀ l, x ∈ insertByRank a l ↔ x = a ∨ x ∈ l := by
  intro l
  induction l with
  | nil => simp [insertByRank]
  | cons b t ih =>
    by_cases h : a.average_rank < b.average_rank
    · simp [insertByRank, h, List.mem_cons]
    · simp only [insertByRank, if_neg h, List.mem_cons, ih]
      tauto

theorem mem_sortByRank (x : AggEntry) :
    ∀ (l acc : List AggEntry),
      (x ∈ l.foldl (fun acc a => insertByRank a acc) acc ↔ x ∈ acc ∨ x ∈ l) := by
  intro l
  induction l with
  | nil => intro acc; simp
  | cons a l ih =>
    intro acc
    simp only [List.foldl_cons]
    rw [ih (insertByRank a acc)]
    rw [mem_insertByRank]
    simp only [List.mem_cons]
    tauto

theorem mem_sortByRank_iff (x : AggEntry) (l : List AggEntry) :
    x ∈ sortByRank l ↔ x ∈ l := by
  unfold sortByRank
  rw [mem_sortByRank]
  simp

theorem sorted_insertByRank (a : AggEntry) :
    ∀ l, l.Pairwise (fun x y => x.average_rank ≤ y.average_rank) →
      (insertByRank a l).Pairwise (fun x y => x.average_rank ≤ y.average_rank) := by
  intro l
  induction l with
  | nil => intro _; simp [insertByRank]
  | cons b t ih =>
    intro h
    rw [List.pairwise_cons] at h
    by_cases hab : a.average_rank < b.average_rank
    · simp only [insertByRank, if_pos hab]
      rw [List.pairwise_cons]
      refine ⟨?_, List.pairwise_cons.2 h⟩
      intro y hy
      rcases List.mem_cons.1 hy with rfl | hy
      · exact le_of_lt hab
      · exact le_trans (le_of_lt hab) (h.1 y hy)
    · simp only [insertByRank, if_neg hab]
      rw [List.pairwise_cons]
      refine ⟨?_, ih h.2⟩
      intro y hy
      rcases (mem_insertByRank y a t).1 hy with rfl | hy
      · exact le_of_not_lt hab
      · exact h.1 y hy

theorem sorted_sortByRank :
    ∀ (l acc : List AggEntry),
      acc.Pairwise (fun x y => x.average_rank ≤ y.average_rank) →
      (l.foldl (fun acc a => insertByRank a acc) acc).Pairwise
        (fun x y => x.average_rank ≤ y.average_rank) := by
  intro l
  induction l with
  | nil => intro acc h; simpa using h
  | cons a l ih =>
    intro acc h
    simp only [List.foldl_cons]
    exact ih _ (sorted_insertByRank a acc h)

/-- C4 (amended): every aggregate-ranking entry carries the count of the
1-based positions of its worker across the cleaned per-reviewer rankings and
their mean rounded to two decimals, and the output is sorted ascending by
this (rounded) average rank.  Ties keep first-encountered order, not
worker-name order. -/
theorem calculate_aggregate_rankings_spec (s2 : List Stage2Result)
    (ltm : List (Str × String)) :
    (∀ e ∈ calculate_aggregate_rankings s2 ltm,
      positionsSpec s2 ltm e.model ≠ [] ∧
      e.rankings_count = (positionsSpec s2 ltm e.model).length ∧
      e.average_rank = round2 (ratMean (positionsSpec s2 ltm e.model))) ∧
    (calculate_aggregate_rankings s2 ltm).Pairwise
      (fun x y => x.average_rank ≤ y.average_rank) := by
  constructor
  · intro e he
    unfold calculate_aggregate_rankings at he
    rw [mem_sortByRank_iff] at he
    obtain ⟨p, hp, hpe⟩ := List.mem_filterMap.1 he
    by_cases hne : p.2 ≠ []
    · rw [if_pos hne] at hpe
      obtain rfl := Option.some.inj hpe
      have hfind : assocFind p.1 (modelPositions s2 ltm) = some p.2 :=
        assocFind_of_mem_nodup_keys p.1 p.2 _ (nodup_keys_modelPositions s2 ltm)
          (by exact hp)
      rw [assocFind_modelPositions] at hfind
      by_cases hsp : positionsSpec s2 ltm p.1 = []
      · rw [if_pos hsp] at hfind; exact absurd hfind (by simp)
      · rw [if_neg hsp] at hfind
        have hps : positionsSpec s2 ltm p.1 = p.2 := Option.some.inj hfind
        exact ⟨hsp, by simp [hps], by simp [hps]⟩
    · rw [if_neg hne] at hpe
      exact absurd hpe (by simp)
  · unfold calculate_aggregate_rankings
    exact sorted_sortByRank _ [] (by simp)

/-- Concrete evaluation of the aggregator on the spec's two-reviewer
example (reviewers ranking [B,A] and [A,B]). -/
theorem calc_agg_two_reviewers_eval :
    calculate_aggregate_rankings
        [{ parsed_ranking := ["Response B".data, "Response A".data],
           reviewed_labels := ["Response A".data, "Response B".data] },
         { parsed_ranking := ["Response A".data, "Response B".data],
           reviewed_labels := ["Response A".data, "Response B".data] }]
        [("Response A".data, "alpha"), ("Response B".data, "zeta")] =
      [⟨"zeta", 3 / 2, 2⟩, ⟨"alpha", 3 / 2, 2⟩] := by
  have hmp : modelPositions
      [{ parsed_ranking := ["Response B".data, "Response A".data],
         reviewed_labels := ["Response A".data, "Response B".data] },
       { parsed_ranking := ["Response A".data, "Response B".data],
         reviewed_labels := ["Response A".data, "Response B".data] }]
      [("Response A".data, "alpha"), ("Response B".data, "zeta")] =
      [("zeta", [1, 2]), ("alpha", [2, 1])] := by decide
  have h3 : round2 (ratMean [1, 2]) = 3 / 2 := by
    norm_num [round2, roundHalfEven, ratMean]
  have h4 : round2 (ratMean [2, 1]) = 3 / 2 := by
    norm_num [round2, roundHalfEven, ratMean]
  unfold calculate_aggregate_rankings
  rw [hmp]
  have hfm : List.filterMap
      (fun p =>
        if p.2 ≠ [] then
          some (⟨p.1, round2 (ratMean p.2), p.2.length⟩ : AggEntry)
        else none)
      [("zeta", [1, 2]), ("alpha", [2, 1])] =
      [⟨"zeta", round2 (ratMean [1, 2]), 2⟩,
        ⟨"alpha", round2 (ratMean [2, 1]), 2⟩] := rfl
  rw [hfm, h3, h4]
  norm_num [sortByRank, insertByRank]

/-- Concrete evaluation of the aggregator on a three-reviewer example whose
means are not representable in two decimals. -/
theorem calc_agg_three_reviewers_eval :
    calculate_aggregate_rankings
        [{ parsed_ranking := ["Response A".data, "Response B".data],
           reviewed_labels := ["Response A".data, "Response B".data] },
         { parsed_ranking := ["Response A".data, "Response B".data],
           reviewed_labels := ["Response A".data, "Response B".data] },
         { parsed_ranking := ["Response B".data, "Response A".data],
           reviewed_labels := ["Response A".data, "Response B".data] }]
        [("Response A".data, "alpha"), ("Response B".data, "zeta")] =
      [⟨"alpha", 133 / 100, 3⟩, ⟨"zeta", 167 / 100, 3⟩] := by
  have hmp : modelPositions
      [{ parsed_ranking := ["Response A".data, "Response B".data],
         reviewed_labels := ["Response A".data, "Response B".data] },
       { parsed_ranking := ["Response A".data, "Response B".data],
         reviewed_labels := ["Response A".data, "Response B".data] },
       { parsed_ranking := ["Response B".data, "Response A".data],
         reviewed_labels := ["Response A".data, "Response B".data] }]
      [("Response A".data, "alpha"), ("Response B".data, "zeta")] =
      [("alpha", [1, 1, 2]), ("zeta", [2, 2, 1])] := by decide
  have h3 : round2 (ratMean [1, 1, 2]) = 133 / 100 := by
    norm_num [round2, roundHalfEven, ratMean]
  have h4 : round2 (ratMean [2, 2, 1]) = 167 / 100 := by
    norm_num [round2, roundHalfEven, ratMean]
  unfold calculate_aggregate_rankings
  rw [hmp]
  have hfm : List.filterMap
      (fun p =>
        if p.2 ≠ [] then
          some (⟨p.1, round2 (ratMean p.2), p.2.length⟩ : AggEntry)
        else none)
      [("alpha", [1, 1, 2]), ("zeta", [2, 2, 1])] =
      [⟨"alpha", round2 (ratMean [1, 1, 2]), 3⟩,
        ⟨"zeta", round2 (ratMean [2, 2, 1]), 3⟩] := rfl
  rw [hfm, h3, h4]
  norm_num [sortByRank, insertByRank]

/-- C4 witness: the spec's two-reviewer example through the amended
theorem. -/
theorem calculate_aggregate_rankings_spec_witness :
    (⟨"zeta", 3 / 2, 2⟩ : AggEntry) ∈
      calculate_aggregate_rankings
        [{ parsed_ranking := ["Response B".data, "Response A".data],
           reviewed_labels := ["Response A".data, "Response B".data] },
         { parsed_ranking := ["Response A".data, "Response B".data],
           reviewed_labels := ["Response A".data, "Response B".data] }]
        [("Response A".data, "alpha"), ("Response B".data, "zeta")] ∧
    positionsSpec
        [{ parsed_ranking := ["Response B".data, "Response A".data],
           reviewed_labels := ["Response A".data, "Response B".data] },
         { parsed_ranking := ["Response A".data, "Response B".data],
           reviewed_labels := ["Response A".data, "Response B".data] }]
        [("Response A".data, "alpha"), ("Response B".data, "zeta")] "zeta" ≠ [] ∧
    (2 : ℕ) =
      (positionsSpec
        [{ parsed_ranking := ["Response B".data, "Response A".data],
           reviewed_labels := ["Response A".data, "Response B".data] },
         { parsed_ranking := ["Response A".data, "Response B".data],
           reviewed_labels := ["Response A".data, "Response B".data] }]
        [("Response A".data, "alpha"), ("Response B".data, "zeta")] "zeta").length ∧
    (3 / 2 : ℚ) =
      round2 (ratMean
        (positionsSpec
          [{ parsed_ranking := ["Response B".data, "Response A".data],
             reviewed_labels := ["Response A".data, "Response B".data] },
           { parsed_ranking := ["Response A".data, "Response B".data],
             reviewed_labels := ["Response A".data, "Response B".data] }]
          [("Response A".data, "alpha"), ("Response B".data, "zeta")] "zeta")) := by
  have hmem : (⟨"zeta", 3 / 2, 2⟩ : AggEntry) ∈
      calculate_aggregate_rankings
        [{ parsed_ranking := ["Response B".data, "Response A".data],
           reviewed_labels := ["Response A".data, "Response B".data] },
         { parsed_ranking := ["Response A".data, "Response B".data],
           reviewed_labels := ["Response A".data, "Response B".data] }]
        [("Response A".data, "alpha"), ("Response B".data, "zeta")] := by
    rw [calc_agg_two_reviewers_eval]
    exact List.mem_cons_self _ _
  have h := (calculate_aggregate_rankings_spec _ _).1 _ hmem
  exact ⟨hmem, h.1, h.2.1, h.2.2⟩

/-- C4 counterexample: ties are NOT broken by worker name (they keep
first-encountered order), and the stored average is the two-decimal rounding
of the mean, not the exact mean. -/
theorem calculate_aggregate_rankings_claim_false :
    calculate_aggregate_rankings
        [{ parsed_ranking := ["Response B".data, "Response A".data],
           reviewed_labels := ["Response A".data, "Response B".data] },
         { parsed_ranking := ["Response A".data, "Response B".data],
           reviewed_labels := ["Response A".data, "Response B".data] }]
        [("Response A".data, "alpha"), ("Response B".data, "zeta")] =
      [⟨"zeta", 3 / 2, 2⟩, ⟨"alpha", 3 / 2, 2⟩] ∧
    ("alpha".data : List Char) < "zeta".data ∧
    calculate_aggregate_rankings
        [{ parsed_ranking := ["Response A".data, "Response B".data],
           reviewed_labels := ["Response A".data, "Response B".data] },
         { parsed_ranking := ["Response A".data, "Response B".data],
           reviewed_labels := ["Response A".data, "Response B".data] },
         { parsed_ranking := ["Response B".data, "Response A".data],
           reviewed_labels := ["Response A".data, "Response B".data] }]
        [("Response A".data, "alpha"), ("Response B".data, "zeta")] =
      [⟨"alpha", 133 / 100, 3⟩, ⟨"zeta", 167 / 100, 3⟩] ∧
    (133 / 100 : ℚ) ≠ 4 / 3 := by
  exact ⟨calc_agg_two_reviewers_eval, by decide, calc_agg_three_reviewers_eval,
    by norm_num⟩

/-! ## C7: label assignment by position among successful responders -/

theorem maybe_rewrite_model (council : List Worker)
    (rw : String → Str → Option ChatResponse) (r : Stage1Result) :
    (maybe_rewrite council rw r).model = r.model := by
  unfold maybe_rewrite
  repeat' split
  all_goals dsimp only
  repeat' split
  all_goals rfl

theorem s1_models_aux (q : Str) (resp : String → Str → Option ChatResponse)
    (mk : Worker → ChatResponse → Stage1Result)
    (hmk : ∀ w c, (mk w c).model = w.name)
    (mr : Stage1Result → Stage1Result) (hmr : ∀ r, (mr r).model = r.model) :
    ∀ cl : List Worker,
      (((cl.filterMap (fun w => (resp w.name q).map (mk w))).map mr).map
        (fun r => r.model)) =
        (cl.filter (fun w => (resp w.name q).isSome)).map (fun w => w.name) := by
  intro cl
  induction cl with
  | nil => rfl
  | cons w ws ih =>
    cases hr : resp w.name q with
    | none =>
      simp only [List.filterMap_cons, hr, List.filter_cons, Option.isSome_none,
        Bool.false_eq_true, if_false]
      exact ih
    | some c =>
      simp only [List.filterMap_cons, hr, List.filter_cons, Option.isSome_some,
        if_true, Option.map_some', List.map_cons, hmr, hmk]
      rw [ih]

/-- The models of the Stage-1 results are exactly the names of the workers
whose reply was present, in council order. -/
theorem s1_models (council : List Worker) (q : Str)
    (resp rw : String → Str → Option ChatResponse) :
    (stage1_collect_responses council q resp rw).map (fun r => r.model) =
      (council.filter (fun w => (resp w.name q).isSome)).map (fun w => w.name) :=
  s1_models_aux q resp _ (fun _ _ => rfl) _ (maybe_rewrite_model council rw) council

/-- C7: the label-to-model map pairs the i-th letter with the i-th successful
responder in council order (labels are positional: an earlier failure shifts
all subsequent letters). -/
theorem stage2_labels_by_position (council : List Worker) (q : Str)
    (resp rw : String → Str → Option ChatResponse) :
    stage2_label_to_model (stage1_collect_responses council q resp rw) =
      ((council.filter (fun w => (resp w.name q).isSome)).map
        (fun w => w.name)).enum.map (fun p => (mkLabel p.1, p.2)) := by
  unfold stage2_label_to_model
  rw [← s1_models council q resp rw]
  rw [List.enum_map, List.map_map]
  rfl

/-! ## C8 and C9: stage-2 skip and the stage-1-empty error bundle -/

/-- C8: with fewer than 2 Stage-1 results, Stage 2 is skipped (empty result
list) while the label map is still populated with one label per Stage-1
result; with exactly one successful responder the full pipeline still runs
Stage 3 on the Stage-1 data (with empty Stage-2 context) and produces empty
aggregates. -/
theorem stage2_skipped_when_single (council : List Worker) (chairman : Worker)
    (titleGen : Option String)
    (translate resp rw1 : String → Str → Option ChatResponse)
    (reviewReply : String → Option ChatResponse)
    (reviewRw : String → Str → Option ChatResponse)
    (synth : Str → List Stage1Result → List Stage2Result → Option SynthResponse)
    (q : Str) :
    (∀ s1 : List Stage1Result, s1.length < 2 →
      stage2_collect_rankings council reviewReply reviewRw s1 =
        ([], stage2_label_to_model s1) ∧
      (stage2_label_to_model s1).length = s1.length) ∧
    ((stage1_collect_responses council
        (normalize_user_query_to_english council titleGen translate q)
        resp rw1).length = 1 →
      run_full_council council chairman titleGen translate resp rw1 reviewReply
          reviewRw synth q =
        (stage1_collect_responses council
            (normalize_user_query_to_english council titleGen translate q) resp rw1,
          [],
          stage3_synthesize_final chairman synth
            (normalize_user_query_to_english council titleGen translate q)
            (stage1_collect_responses council
              (normalize_user_query_to_english council titleGen translate q)
              resp rw1)
            [],
          { label_to_model := some (stage2_label_to_model
              (stage1_collect_responses council
                (normalize_user_query_to_english council titleGen translate q)
                resp rw1)),
            aggregate_rankings := some [],
            aggregate_scores := some [] })) := by
  constructor
  · intro s1 hlt
    constructor
    · unfold stage2_collect_rankings
      rw [if_pos hlt]
    · simp [stage2_label_to_model]
  · intro h1
    have hne : stage1_collect_responses council
        (normalize_user_query_to_english council titleGen translate q)
        resp rw1 ≠ [] := by
      intro hc
      rw [hc] at h1
      simp at h1
    have hskip : stage2_collect_rankings council reviewReply reviewRw
        (stage1_collect_responses council
          (normalize_user_query_to_english council titleGen translate q)
          resp rw1) =
        ([], stage2_label_to_model
          (stage1_collect_responses council
            (normalize_user_query_to_english council titleGen translate q)
            resp rw1)) := by
      unfold stage2_collect_rankings
      rw [if_pos (by omega)]
    simp only [run_full_council]
    rw [if_neg hne, hskip]
    rfl

/-- C9: when Stage 1 yields zero successful responses, the pipeline returns
the structured `stage1_no_responses` error bundle with empty Stage-1 and
Stage-2 lists and empty metadata, without consulting the Stage-2 or Stage-3
oracles. -/
theorem run_full_council_stage1_empty (council : List Worker) (chairman : Worker)
    (titleGen : Option String)
    (translate resp rw1 : String → Str → Option ChatResponse)
    (reviewReply : String → Option ChatResponse)
    (reviewRw : String → Str → Option ChatResponse)
    (synth : Str → List Stage1Result → List Stage2Result → Option SynthResponse)
    (q : Str)
    (h : stage1_collect_responses council
      (normalize_user_query_to_english council titleGen translate q)
      resp rw1 = []) :
    run_full_council council chairman titleGen translate resp rw1 reviewReply
        reviewRw synth q =
      ([], [],
        { model := "error", response := stage1ErrMsg,
          error := true, error_type := some "stage1_no_responses" },
        {}) := by
  simp only [run_full_council]
  rw [if_pos h]

/-- C9 witness: a one-worker council whose worker never replies. -/
theorem run_full_council_stage1_empty_witness :
    stage1_collect_responses [⟨"a", "http://a"⟩]
      (normalize_user_query_to_english [⟨"a", "http://a"⟩] none
        (fun _ _ => none) "hi".data)
      (fun _ _ => none) (fun _ _ => none) = [] ∧
    run_full_council [⟨"a", "http://a"⟩] ⟨"chair", "http://c"⟩ none
        (fun _ _ => none) (fun _ _ => none) (fun _ _ => none) (fun _ => none)
        (fun _ _ => none) (fun _ _ _ => none) "hi".data =
      ([], [],
        { model := "error", response := stage1ErrMsg,
          error := true, error_type := some "stage1_no_responses" },
        {}) :=
  ⟨rfl, run_full_council_stage1_empty [⟨"a", "http://a"⟩] ⟨"chair", "http://c"⟩ none
    (fun _ _ => none) (fun _ _ => none) (fun _ _ => none) (fun _ => none)
    (fun _ _ => none) (fun _ _ _ => none) "hi".data rfl⟩

/-- C8 witness: a two-worker council where only the first worker answers
Stage 1; Stage 2 is skipped but Stage 3 still runs on the single result. -/
theorem stage2_skipped_when_single_witness :
    run_full_council [⟨"a", "http://a"⟩, ⟨"b", "http://b"⟩] ⟨"chair", "http://c"⟩
        none (fun _ _ => none)
        (fun n _ => if n = "a" then some { content := "ok".data, latency_ms := 5, model := "m" } else none)
        (fun _ _ => none) (fun _ => none) (fun _ _ => none)
        (fun _ _ _ => some { model := "chair-model", response := "final".data, latency_ms := 7 }) "hi".data =
      (stage1_collect_responses [⟨"a", "http://a"⟩, ⟨"b", "http://b"⟩]
          (normalize_user_query_to_english
            [⟨"a", "http://a"⟩, ⟨"b", "http://b"⟩] none (fun _ _ => none) "hi".data)
          (fun n _ => if n = "a" then some { content := "ok".data, latency_ms := 5, model := "m" } else none)
          (fun _ _ => none),
        [],
        stage3_synthesize_final ⟨"chair", "http://c"⟩
          (fun _ _ _ => some { model := "chair-model", response := "final".data, latency_ms := 7 })
          (normalize_user_query_to_english
            [⟨"a", "http://a"⟩, ⟨"b", "http://b"⟩] none (fun _ _ => none) "hi".data)
          (stage1_collect_responses [⟨"a", "http://a"⟩, ⟨"b", "http://b"⟩]
            (normalize_user_query_to_english
              [⟨"a", "http://a"⟩, ⟨"b", "http://b"⟩] none (fun _ _ => none) "hi".data)
            (fun n _ => if n = "a" then some { content := "ok".data, latency_ms := 5, model := "m" } else none)
            (fun _ _ => none))
          [],
        { label_to_model := some (stage2_label_to_model
            (stage1_collect_responses [⟨"a", "http://a"⟩, ⟨"b", "http://b"⟩]
              (normalize_user_query_to_english
                [⟨"a", "http://a"⟩, ⟨"b", "http://b"⟩] none (fun _ _ => none)
                "hi".data)
              (fun n _ => if n = "a" then some { content := "ok".data, latency_ms := 5, model := "m" } else none)
              (fun _ _ => none))),
          aggregate_rankings := some [],
          aggregate_scores := some [] }) :=
  (stage2_skipped_when_single [⟨"a", "http://a"⟩, ⟨"b", "http://b"⟩]
    ⟨"chair", "http://c"⟩ none (fun _ _ => none)
    (fun n _ => if n = "a" then some { content := "ok".data, latency_ms := 5, model := "m" } else none)
    (fun _ _ => none) (fun _ => none) (fun _ _ => none)
    (fun _ _ _ => some { model := "chair-model", response := "final".data, latency_ms := 7 }) "hi".data).2 rfl

/-! ## C3: the topology loader does not validate `title_generator` -/

/-- C3 evidence: the loader accepts (returns Ok for) a config whose
`title_generator` names no council member, contradicting both the spec and
the source's own comment `# worker name (must be in council)`. -/
theorem load_council_topology_accepts_ghost_title_generator :
    load_council_topology
        { council := [⟨"alpha", "http://a"⟩], chairman := ⟨"chair", "http://c"⟩,
          title_generator := some "ghost" } =
      .ok ⟨[⟨"alpha", "http://a"⟩], ⟨"chair", "http://c"⟩, some "ghost"⟩ ∧
    "ghost" ∉ ([⟨"alpha", "http://a"⟩] : List RawEndpoint).map (fun e => e.name) := by
  constructor
  · rfl
  · decide

end LlmCouncil
